import Mathlib

/-!
# Verification of the SportsNewsCrawler ingestion core

A shallow embedding of the core components of the SportsNewsCrawler
repository, together with theorems settling the specification claims.

Embedded components:
* `internal/domain/article.go` — the `Article` record and `ComputeHash`;
* `internal/app/service.go` — `generateHash`, `processBatch` and the
  single-flight worker guard;
* `internal/infra/repository/mongodb.go` — `BulkUpsert` /
  `GetContentHashes` over an in-memory document store;
* `internal/infra/provider/generic_provider.go` — `crawlLoop` and
  `executeRequest`;
* `internal/infra/queue` (Kafka consumer) and
  `internal/app/sync_service.go` — the CMS sync consumer with DLQ.

Go strings are arbitrary byte sequences, so string-valued fields are
modelled as lists of bytes (`List Nat`, each entry a byte value).
-/

namespace SNC

/-- A Go string / byte slice, as a list of byte values. -/
abbrev ByteStr := List Nat

/-! ## SHA-256 (crypto/sha256), over byte lists -/

/-- 2^32, the modulus for 32-bit machine arithmetic. -/
def M32 : Nat := 4294967296

/-- Rotate a 32-bit word right by `n`. -/
def rotr32 (n x : Nat) : Nat :=
  ((x >>> n) ||| (x <<< (32 - n))) % M32

/-- 32-bit addition with wrap-around. -/
def add32 (a b : Nat) : Nat := (a + b) % M32

def bigSigma0 (x : Nat) : Nat := (rotr32 2 x) ^^^ (rotr32 13 x) ^^^ (rotr32 22 x)

def bigSigma1 (x : Nat) : Nat := (rotr32 6 x) ^^^ (rotr32 11 x) ^^^ (rotr32 25 x)

def smallSigma0 (x : Nat) : Nat := (rotr32 7 x) ^^^ (rotr32 18 x) ^^^ (x >>> 3)

def smallSigma1 (x : Nat) : Nat := (rotr32 17 x) ^^^ (rotr32 19 x) ^^^ (x >>> 10)

/-- SHA-256 choice function; `¬x` is xor with the all-ones 32-bit word. -/
def chF (x y z : Nat) : Nat := (x &&& y) ^^^ ((x ^^^ 4294967295) &&& z)

def majF (x y z : Nat) : Nat := (x &&& y) ^^^ (x &&& z) ^^^ (y &&& z)

/-- The 64 SHA-256 round constants, in decimal. -/
def K256 : List Nat :=
  [1116352408, 1899447441, 3049323471, 3921009573, 961987163, 1508970993,
   2453635748, 2870763221, 3624381080, 310598401, 607225278, 1426881987,
   1925078388, 2162078206, 2614888103, 3248222580, 3835390401, 4022224774,
   264347078, 604807628, 770255983, 1249150122, 1555081692, 1996064986,
   2554220882, 2821834349, 2952996808, 3210313671, 3336571891, 3584528711,
   113926993, 338241895, 666307205, 773529912, 1294757372, 1396182291,
   1695183700, 1986661051, 2177026350, 2456956037, 2730485921, 2820302411,
   3259730800, 3345764771, 3516065817, 3600352804, 4094571909, 275423344,
   430227734, 506948616, 659060556, 883997877, 958139571, 1322822218,
   1537002063, 1747873779, 1955562222, 2024104815, 2227730452, 2361852424,
   2428436474, 2756734187, 3204031479, 3329325298]

/-- The initial SHA-256 hash state, in decimal. -/
def H256 : List Nat :=
  [1779033703, 3144134277, 1013904242, 2773480762, 1359893119, 2600822924,
   528734635, 1541459225]

/-- Big-endian byte representation of `v` in `k` bytes. -/
def toBytesBE : Nat → Nat → List Nat
  | 0, _ => []
  | k + 1, v => toBytesBE k (v / 256) ++ [v % 256]

/-- SHA-256 padding: append `0x80`, zeros, and the 64-bit big-endian bit length,
so the total length is a multiple of 64 bytes. -/
def sha256Pad (msg : List Nat) : List Nat :=
  let len := msg.length
  let padZeros := (120 - ((len + 1) % 64)) % 64
  msg ++ 0x80 :: List.replicate padZeros 0 ++ toBytesBE 8 (8 * len)

/-- Group bytes into big-endian 32-bit words. -/
def bytesToWords : List Nat → List Nat
  | b0 :: b1 :: b2 :: b3 :: rest =>
      (((b0 * 256 + b1) * 256 + b2) * 256 + b3) :: bytesToWords rest
  | _ => []

/-- Split a (padded) byte list into `k` blocks of 64 bytes. -/
def chunks64 : Nat → List Nat → List (List Nat)
  | 0, _ => []
  | k + 1, l => l.take 64 :: chunks64 k (l.drop 64)

/-- Extend the 16-word message block by `k` further schedule words. -/
def schedGo : Nat → List Nat → List Nat
  | 0, w => w
  | k + 1, w =>
      let i := w.length
      let x := add32 (add32 (smallSigma1 (w.getD (i - 2) 0)) (w.getD (i - 7) 0))
                     (add32 (smallSigma0 (w.getD (i - 15) 0)) (w.getD (i - 16) 0))
      schedGo k (w ++ [x])

/-- The 64-word SHA-256 message schedule of one block. -/
def schedule (w16 : List Nat) : List Nat := schedGo 48 w16

/-- The SHA-256 compression rounds over the zipped (constant, schedule) list. -/
def compressGo : List (Nat × Nat) → List Nat → List Nat
  | [], st => st
  | (k, w) :: rest, st =>
      match st with
      | [a, b, c, d, e, f, g, hh] =>
          let t1 := add32 hh (add32 (bigSigma1 e) (add32 (chF e f g) (add32 k w)))
          let t2 := add32 (bigSigma0 a) (majF a b c)
          compressGo rest [add32 t1 t2, a, b, c, add32 d t1, e, f, g]
      | other => other

/-- Process one 64-byte block, updating the running hash state. -/
def processBlock (h : List Nat) (block : List Nat) : List Nat :=
  let w := schedule (bytesToWords block)
  let st := compressGo (K256.zip w) h
  (h.zip st).map (fun p => add32 p.1 p.2)

/-- SHA-256 digest (32 bytes) of a byte message. -/
def sha256 (msg : List Nat) : List Nat :=
  let padded := sha256Pad msg
  let blocks := chunks64 (padded.length / 64) padded
  (blocks.foldl processBlock H256).foldr (fun w acc => toBytesBE 4 w ++ acc) []

/-- One lowercase hexadecimal digit, as an ASCII byte. -/
def hexDigit (n : Nat) : Nat := if n < 10 then 48 + n else 87 + n

/-- Lowercase hex encoding of a byte list (encoding/hex). -/
def hexEncode (bs : List Nat) : ByteStr :=
  bs.foldr (fun b acc => hexDigit (b / 16) :: hexDigit (b % 16) :: acc) []

/-- The bytes of the ASCII string "abc". -/
def abcBytes : ByteStr := [97, 98, 99]

example :
    hexEncode (sha256 abcBytes) =
      [98, 97, 55, 56, 49, 54, 98, 102, 56, 102, 48, 49, 99, 102, 101, 97,
       52, 49, 52, 49, 52, 48, 100, 101, 53, 100, 97, 101, 50, 50, 50, 51,
       98, 48, 48, 51, 54, 49, 97, 51, 57, 54, 49, 55, 55, 97, 57, 99,
       98, 52, 49, 48, 102, 102, 54, 49, 102, 50, 48, 48, 49, 53, 97, 100] := by
  decide

/-! ## The data model (internal/domain/article.go) -/

/-- A content tag (`domain.Tag`). -/
structure Tag where
  id : Int
  label : ByteStr
deriving DecidableEq, Repr

/-- The normalized article record (`domain.Article`).  String fields are byte
strings, instants are integers (Unix nanoseconds; `0` models the zero time). -/
structure Article where
  id : ByteStr
  source : ByteStr
  externalId : ByteStr
  type : ByteStr
  title : ByteStr
  description : ByteStr
  summary : ByteStr
  body : ByteStr
  content : ByteStr
  url : ByteStr
  imageUrl : ByteStr
  tags : List Tag
  publishedAt : Int
  updatedAt : Int
  fetchedAt : Int
  contentHash : ByteStr
deriving DecidableEq, Repr

/-- `Article.ComputeHash` (article.go): SHA-256 over the hasher writes
`Source`, `URL`, `Title`, `Summary`, `Body` (in that order), hex-encoded. -/
def Article.computeHash (a : Article) : ByteStr :=
  hexEncode (sha256 (a.source ++ a.url ++ a.title ++ a.summary ++ a.body))

/-- `generateHash` (service.go): the same hasher writes, in the same order. -/
def generateHash (a : Article) : ByteStr :=
  hexEncode (sha256 (a.source ++ a.url ++ a.title ++ a.summary ++ a.body))

/-- The byte stream fed to the SHA-256 hasher by `generateHash` /
`ComputeHash`: the five content fields concatenated with no separator. -/
def hashInput (a : Article) : ByteStr :=
  a.source ++ a.url ++ a.title ++ a.summary ++ a.body

/-- **C2.** The content fingerprint is the hex-encoded SHA-256 of
`source ‖ url ‖ title ‖ summary ‖ body` (that order, no separator);
`generateHash` (service.go) and `Article.ComputeHash` (article.go) agree;
two articles agreeing on those five fields hash identically regardless of all
other fields; and changing exactly one of the five fields changes the byte
stream fed to the hash function. -/
theorem generateHash_spec :
    (∀ a : Article, generateHash a = hexEncode (sha256 (hashInput a)) ∧
        generateHash a = a.computeHash) ∧
    (∀ a b : Article, a.source = b.source → a.url = b.url → a.title = b.title →
        a.summary = b.summary → a.body = b.body → generateHash a = generateHash b) ∧
    (∀ a b : Article,
        (a.url = b.url → a.title = b.title → a.summary = b.summary → a.body = b.body →
          a.source ≠ b.source → hashInput a ≠ hashInput b) ∧
        (a.source = b.source → a.title = b.title → a.summary = b.summary → a.body = b.body →
          a.url ≠ b.url → hashInput a ≠ hashInput b) ∧
        (a.source = b.source → a.url = b.url → a.summary = b.summary → a.body = b.body →
          a.title ≠ b.title → hashInput a ≠ hashInput b) ∧
        (a.source = b.source → a.url = b.url → a.title = b.title → a.body = b.body →
          a.summary ≠ b.summary → hashInput a ≠ hashInput b) ∧
        (a.source = b.source → a.url = b.url → a.title = b.title → a.summary = b.summary →
          a.body ≠ b.body → hashInput a ≠ hashInput b)) := by
  refine ⟨fun a => ⟨rfl, rfl⟩, ?_, ?_⟩
  · intro a b hs hu ht hm hb
    simp [generateHash, hs, hu, ht, hm, hb]
  · intro a b
    refine ⟨?_, ?_, ?_, ?_, ?_⟩ <;> intro h1 h2 h3 h4 hne heq <;>
      simp only [hashInput, h1, h2, h3, h4] at heq <;> apply hne
    · have := List.append_cancel_right
        (List.append_cancel_right (List.append_cancel_right (List.append_cancel_right heq)))
      exact this
    · exact List.append_cancel_left (List.append_cancel_right
        (List.append_cancel_right (List.append_cancel_right heq)))
    · exact List.append_cancel_left (List.append_cancel_right (List.append_cancel_right heq))
    · exact List.append_cancel_left (List.append_cancel_right heq)
    · exact List.append_cancel_left heq

/-- Witness article: concrete byte-string fields. -/
def artW1 : Article :=
  { id := [1], source := [115], externalId := [], type := [], title := [116],
    description := [100], summary := [109], body := [98], content := [],
    url := [117], imageUrl := [], tags := [], publishedAt := 3, updatedAt := 0,
    fetchedAt := 0, contentHash := [] }

/-- `artW1` with only non-fingerprint fields changed (tags, image, instants). -/
def artW2 : Article :=
  { artW1 with tags := [⟨1, [120]⟩], imageUrl := [105], publishedAt := 5, fetchedAt := 9 }

/-- `artW1` with only the title changed. -/
def artW3 : Article := { artW1 with title := [119] }

theorem generateHash_spec_witness :
    generateHash artW1 = generateHash artW2 ∧ hashInput artW1 ≠ hashInput artW3 :=
  ⟨generateHash_spec.2.1 artW1 artW2 rfl rfl rfl rfl rfl,
   (generateHash_spec.2.2 artW1 artW3).2.2.1 rfl rfl rfl rfl (by decide)⟩

/-! ## The change detector / batch processor (service.go processBatch)

The MongoDB repository is modelled as an in-memory list of documents keyed by
`id` (the collection's `_id`); `BulkUpsert` and `GetContentHashes`
(mongodb.go) become pure functions on it.  Transient infrastructure failures
of one call are modelled by a `Faults` record saying which of the three
external calls of this batch fail. -/

/-- Find the stored document with the given `_id`. -/
def storeFind (store : List Article) (i : ByteStr) : Option Article :=
  store.find? (fun a => a.id = i)

/-- `UpdateOne` with upsert (mongodb.go): replace the document with matching
`_id`, or insert the article if absent. -/
def storeUpsert (store : List Article) (a : Article) : List Article :=
  if store.any (fun b => b.id = a.id) then
    store.map (fun b => if b.id = a.id then a else b)
  else store ++ [a]

/-- `BulkUpsert` (mongodb.go): one upsert write model per article. -/
def bulkUpsertStore (store : List Article) (articles : List Article) : List Article :=
  articles.foldl storeUpsert store

/-- `GetContentHashes` (mongodb.go): the `{_id, content_hash}` projection of
the documents whose `_id` is in `ids`; absent ids are omitted. -/
def getContentHashes (store : List Article) (ids : List ByteStr) :
    List (ByteStr × ByteStr) :=
  ids.filterMap (fun i => (storeFind store i).map (fun a => (i, a.contentHash)))

/-- Map lookup in the fetched `{id → storedHash}` projection. -/
def assocFind (m : List (ByteStr × ByteStr)) (i : ByteStr) : Option ByteStr :=
  (m.find? (fun p => p.1 = i)).map (fun p => p.2)

/-- In-batch dedup by `id`, earlier occurrence wins (the `seenIDs` loop of
processBatch); `seen` is the set of ids already kept. -/
def dedupGo (seen : List ByteStr) : List Article → List Article
  | [] => []
  | a :: rest =>
      if a.id ∈ seen then dedupGo seen rest
      else a :: dedupGo (a.id :: seen) rest

def dedupById (articles : List Article) : List Article := dedupGo [] articles

/-- The classification loop of processBatch: an article whose id is absent
from the fetched hash map is New, one whose stored hash differs is Changed
(both are collected, in order), otherwise it is Unchanged (counted). -/
def classifyArticles (existing : List (ByteStr × ByteStr)) :
    List Article → List Article × Nat
  | [] => ([], 0)
  | a :: rest =>
      let r := classifyArticles existing rest
      match assocFind existing a.id with
      | none => (a :: r.1, r.2)
      | some oldHash => if oldHash = a.contentHash then (r.1, r.2 + 1) else (a :: r.1, r.2)

/-- Which of the three external calls made by this `processBatch` invocation
fail (the repository lookup, the bulk upsert, the Kafka batch publish). -/
structure Faults where
  getHashes : Bool
  bulkUpsert : Bool
  publish : Bool
deriving DecidableEq, Repr

/-- The state `processBatch` acts on: the document store, the main event
channel, and the ingestion metrics/counters it touches.  The `calls*` fields
count the external calls actually made. -/
structure PipelineState where
  store : List Article
  channel : List Article
  dupSkipped : Nat
  ingested : Nat
  freshnessObs : Nat
  publishErrors : Nat
  articlesPublished : Nat
  callsGetHashes : Nat
  callsBulkUpsert : Nat
  callsPublish : Nat
deriving DecidableEq, Repr

/-- Errors returned by `processBatch`. -/
inductive PBErr where
  | getHashesFailed
  | bulkUpsertFailed
deriving DecidableEq, Repr

/-- The article with its `ContentHash` field freshly computed (step 1 of the
hashing loop in processBatch). -/
def withHash (a : Article) : Article := { a with contentHash := generateHash a }

/-- `processBatch` (service.go, lines 156–243): dedup by id, return nil on an
empty batch, compute hashes, query stored hashes, classify New/Changed vs
Unchanged, record metrics, bulk upsert everything, then publish the changed
set as one batch; a publish error is only counted, never returned. -/
def processBatch (f : Faults) (st : PipelineState) (batch : List Article) :
    PipelineState × Option PBErr :=
  let uniq := dedupById batch
  if uniq.isEmpty then (st, none)
  else
    let hashed := uniq.map withHash
    let ids := hashed.map (fun a => a.id)
    let st1 := { st with callsGetHashes := st.callsGetHashes + 1 }
    if f.getHashes then (st1, some .getHashesFailed)
    else
      let existing := getContentHashes st1.store ids
      let cls := classifyArticles existing hashed
      let st2 := { st1 with
        dupSkipped := st1.dupSkipped + cls.2,
        ingested := st1.ingested + hashed.length,
        freshnessObs :=
          st1.freshnessObs + (hashed.filter (fun a => ¬ a.publishedAt = 0)).length,
        callsBulkUpsert := st1.callsBulkUpsert + 1 }
      if f.bulkUpsert then (st2, some .bulkUpsertFailed)
      else
        let st3 := { st2 with store := bulkUpsertStore st2.store hashed }
        if cls.1.isEmpty then (st3, none)
        else
          let st4 := { st3 with callsPublish := st3.callsPublish + 1 }
          if f.publish then ({ st4 with publishErrors := st4.publishErrors + 1 }, none)
          else ({ st4 with
                   channel := st4.channel ++ cls.1,
                   articlesPublished := st4.articlesPublished + cls.1.length }, none)

/-! ### Store and classification lemmas -/

theorem storeFind_cons (b : Article) (store : List Article) (i : ByteStr) :
    storeFind (b :: store) i = if b.id = i then some b else storeFind store i := by
  by_cases hb : b.id = i <;> simp [storeFind, List.find?_cons, hb]

theorem storeFind_upsert_self (store : List Article) (a : Article) :
    storeFind (storeUpsert store a) a.id = some a := by
  unfold storeUpsert
  by_cases hAny : store.any (fun b => b.id = a.id)
  · simp only [hAny, if_true]
    induction store with
    | nil => simp at hAny
    | cons b rest ih =>
        by_cases hb : b.id = a.id
        · simp [storeFind_cons, hb]
        · have hAny' : rest.any (fun b => b.id = a.id) := by
            simp only [List.any_cons, hb] at hAny
            simpa using hAny
          simpa [storeFind_cons, hb] using ih hAny'
  · simp only [hAny, if_false]
    induction store with
    | nil => simp [storeFind_cons]
    | cons b rest ih =>
        have hb : ¬ b.id = a.id := by
          intro hcontra
          exact hAny (by simp [List.any_cons, hcontra])
        have hAny' : ¬ rest.any (fun b => b.id = a.id) := by
          intro hcontra
          exact hAny (by simp [List.any_cons, hcontra])
        simpa [storeFind_cons, hb] using ih hAny'

theorem storeFind_map_replace (store : List Article) (a : Article) (i : ByteStr)
    (hne : ¬ a.id = i) :
    storeFind (store.map (fun b => if b.id = a.id then a else b)) i = storeFind store i := by
  induction store with
  | nil => rfl
  | cons b rest ih =>
      by_cases hb : b.id = a.id
      · have hbi : ¬ b.id = i := by rw [hb]; exact hne
        simp [storeFind_cons, hb, hne, hbi, ih]
      · simp [storeFind_cons, hb, ih]

theorem storeFind_append_single (store : List Article) (a : Article) (i : ByteStr)
    (hne : ¬ a.id = i) : storeFind (store ++ [a]) i = storeFind store i := by
  induction store with
  | nil => simp [storeFind, List.find?_cons, hne]
  | cons b rest ih =>
      by_cases hb : b.id = i <;> simp [List.cons_append, storeFind_cons, hb, ih]

theorem storeFind_upsert_other (store : List Article) (a : Article) (i : ByteStr)
    (hne : ¬ a.id = i) : storeFind (storeUpsert store a) i = storeFind store i := by
  unfold storeUpsert
  by_cases hAny : store.any (fun b => b.id = a.id)
  · simp only [hAny, if_true]
    exact storeFind_map_replace store a i hne
  · simp only [hAny, if_false]
    exact storeFind_append_single store a i hne

theorem bulkUpsert_find_not_mem (arts : List Article) (store : List Article) (i : ByteStr)
    (hni : ¬ i ∈ arts.map (fun a => a.id)) :
    storeFind (bulkUpsertStore store arts) i = storeFind store i := by
  induction arts generalizing store with
  | nil => rfl
  | cons c rest ih =>
      have hc : ¬ c.id = i := by
        intro hcontra
        exact hni (by simp [hcontra])
      have hr : ¬ i ∈ rest.map (fun a => a.id) := by
        intro hcontra
        exact hni (by simp [hcontra])
      calc storeFind (bulkUpsertStore (storeUpsert store c) rest) i
          = storeFind (storeUpsert store c) i := ih (storeUpsert store c) hr
        _ = storeFind store i := storeFind_upsert_other store c i hc

theorem bulkUpsert_find_mem (arts : List Article) (store : List Article) (a : Article)
    (ha : a ∈ arts) (hnd : (arts.map (fun a => a.id)).Nodup) :
    storeFind (bulkUpsertStore store arts) a.id = some a := by
  induction arts generalizing store with
  | nil => cases ha
  | cons c rest ih =>
      have hnd' : (rest.map (fun a => a.id)).Nodup := (List.nodup_cons.mp hnd).2
      rcases List.mem_cons.mp ha with rfl | hrest
      · have hni : ¬ a.id ∈ rest.map (fun b => b.id) := (List.nodup_cons.mp hnd).1
        calc storeFind (bulkUpsertStore (storeUpsert store a) rest) a.id
            = storeFind (storeUpsert store a) a.id :=
              bulkUpsert_find_not_mem rest (storeUpsert store a) a.id hni
          _ = some a := storeFind_upsert_self store a
      · exact ih (storeUpsert store c) hrest hnd'

theorem assocFind_cons (p : ByteStr × ByteStr) (m : List (ByteStr × ByteStr)) (i : ByteStr) :
    assocFind (p :: m) i = if p.1 = i then some p.2 else assocFind m i := by
  by_cases h : p.1 = i <;> simp [assocFind, List.find?_cons, h]

theorem getContentHashes_cons_none (store : List Article) (j : ByteStr)
    (rest : List ByteStr) (h : storeFind store j = none) :
    getContentHashes store (j :: rest) = getContentHashes store rest := by
  simp [getContentHashes, List.filterMap_cons, h]

theorem getContentHashes_cons_some (store : List Article) (j : ByteStr)
    (rest : List ByteStr) (b : Article) (h : storeFind store j = some b) :
    getContentHashes store (j :: rest) =
      (j, b.contentHash) :: getContentHashes store rest := by
  simp [getContentHashes, List.filterMap_cons, h]

theorem assocFind_getContentHashes_none (store : List Article) (ids : List ByteStr)
    (i : ByteStr) (h : storeFind store i = none) :
    assocFind (getContentHashes store ids) i = none := by
  induction ids with
  | nil => rfl
  | cons j rest ih =>
      cases hj : storeFind store j with
      | none => rw [getContentHashes_cons_none store j rest hj]; exact ih
      | some b =>
          rw [getContentHashes_cons_some store j rest b hj, assocFind_cons]
          have hij : ¬ j = i := by
            intro hcontra
            rw [hcontra, h] at hj
            cases hj
          simp only [hij, if_false]
          exact ih

theorem assocFind_getContentHashes (store : List Article) (ids : List ByteStr)
    (i : ByteStr) (hmem : i ∈ ids) :
    assocFind (getContentHashes store ids) i =
      (storeFind store i).map (fun a => a.contentHash) := by
  induction ids with
  | nil => cases hmem
  | cons j rest ih =>
      by_cases hij : j = i
      · subst hij
        cases hj : storeFind store j with
        | none =>
            rw [getContentHashes_cons_none store j rest hj]
            exact (assocFind_getContentHashes_none store rest j hj).trans rfl
        | some b =>
            rw [getContentHashes_cons_some store j rest b hj, assocFind_cons]
            simp
      · have hr : i ∈ rest := by
          rcases List.mem_cons.mp hmem with hcontra | hr
          · exact absurd hcontra.symm hij
          · exact hr
        cases hj : storeFind store j with
        | none => rw [getContentHashes_cons_none store j rest hj]; exact ih hr
        | some b =>
            rw [getContentHashes_cons_some store j rest b hj, assocFind_cons]
            simp only [hij, if_false]
            exact ih hr

theorem classify_fst_eq_filter (existing : List (ByteStr × ByteStr)) (arts : List Article) :
    (classifyArticles existing arts).1 =
      arts.filter (fun a => ¬ assocFind existing a.id = some a.contentHash) := by
  induction arts with
  | nil => rfl
  | cons a rest ih =>
      simp only [classifyArticles]
      cases ha : assocFind existing a.id with
      | none => simp [List.filter_cons, ha, ih]
      | some oldHash =>
          by_cases hEq : oldHash = a.contentHash
          · subst hEq
            simp [List.filter_cons, ha, ih]
          · have : ¬ assocFind existing a.id = some a.contentHash := by
              rw [ha]; simpa using hEq
            simp [List.filter_cons, ha, hEq, ih, this]

theorem classify_all_unchanged (existing : List (ByteStr × ByteStr)) (arts : List Article)
    (h : ∀ a ∈ arts, assocFind existing a.id = some a.contentHash) :
    classifyArticles existing arts = ([], arts.length) := by
  induction arts with
  | nil => rfl
  | cons a rest ih =>
      have ha := h a (List.mem_cons_self a rest)
      have hrest := ih (fun b hb => h b (List.mem_cons_of_mem a hb))
      simp [classifyArticles, hrest, ha]

/-! ### Dedup lemmas -/

theorem dedupGo_not_seen {l : List Article} {seen : List ByteStr} {a : Article}
    (ha : a ∈ dedupGo seen l) : ¬ a.id ∈ seen := by
  induction l generalizing seen with
  | nil => cases ha
  | cons b rest ih =>
      by_cases hb : b.id ∈ seen
      · exact ih (by simpa [dedupGo, hb] using ha)
      · simp only [dedupGo, hb, if_false] at ha
        rcases List.mem_cons.mp ha with rfl | hmem
        · exact hb
        · intro hcontra
          exact ih hmem (List.mem_cons_of_mem _ hcontra)

theorem dedupGo_id_nodup (l : List Article) (seen : List ByteStr) :
    ((dedupGo seen l).map (fun a => a.id)).Nodup := by
  induction l generalizing seen with
  | nil => simp [dedupGo]
  | cons b rest ih =>
      by_cases hb : b.id ∈ seen
      · simpa [dedupGo, hb] using ih seen
      · simp only [dedupGo, hb, if_false, List.map_cons, List.nodup_cons]
        refine ⟨?_, ih (b.id :: seen)⟩
        intro hcontra
        rcases List.mem_map.mp hcontra with ⟨c, hc, hcid⟩
        exact dedupGo_not_seen hc (by simp [hcid])

theorem dedup_id_nodup (l : List Article) :
    ((dedupById l).map (fun a => a.id)).Nodup := dedupGo_id_nodup l []

theorem dedup_nil_iff (l : List Article) : dedupById l = [] ↔ l = [] := by
  cases l with
  | nil => simp [dedupById, dedupGo]
  | cons a rest => simp [dedupById, dedupGo]

/-! ### The intermediate values of a `processBatch` run, as named functions -/

/-- The deduplicated batch with freshly computed content hashes. -/
def hashedOf (B : List Article) : List Article := (dedupById B).map withHash

/-- The ids handed to `GetContentHashes`. -/
def batchIds (B : List Article) : List ByteStr := (hashedOf B).map (fun a => a.id)

/-- The `{id → storedHash}` map fetched for the batch. -/
def existingOf (st : PipelineState) (B : List Article) : List (ByteStr × ByteStr) :=
  getContentHashes st.store (batchIds B)

/-- The classification result (changed list, skipped count) of the batch. -/
def clsOf (st : PipelineState) (B : List Article) : List Article × Nat :=
  classifyArticles (existingOf st B) (hashedOf B)

/-- The New ∪ Changed articles of the batch, in batch order. -/
def changedOf (st : PipelineState) (B : List Article) : List Article := (clsOf st B).1

/-- The article's freshly computed hash disagrees with (or is absent from)
the hash stored for its id before the batch was processed. -/
def hashDiffers (st : PipelineState) (a : Article) : Prop :=
  ¬ (storeFind st.store a.id).map (fun b => b.contentHash) = some (generateHash a)

instance (st : PipelineState) (a : Article) : Decidable (hashDiffers st a) := by
  unfold hashDiffers; infer_instance

theorem processBatch_nil (f : Faults) (st : PipelineState) :
    processBatch f st [] = (st, none) := rfl

theorem dedup_isEmpty_false {B : List Article} (hne : ¬ dedupById B = []) :
    (dedupById B).isEmpty = false := by
  cases hD : dedupById B with
  | nil => exact absurd hD hne
  | cons a l => rfl

theorem processBatch_getHashesFail (f : Faults) (st : PipelineState) (B : List Article)
    (hne : ¬ dedupById B = []) (hG : f.getHashes = true) :
    processBatch f st B =
      ({ st with callsGetHashes := st.callsGetHashes + 1 }, some .getHashesFailed) := by
  simp [processBatch, dedup_isEmpty_false hne, hG]

theorem processBatch_bulkFail (f : Faults) (st : PipelineState) (B : List Article)
    (hne : ¬ dedupById B = []) (hG : f.getHashes = false) (hU : f.bulkUpsert = true) :
    processBatch f st B =
      ({ st with
          callsGetHashes := st.callsGetHashes + 1,
          dupSkipped := st.dupSkipped + (clsOf st B).2,
          ingested := st.ingested + (hashedOf B).length,
          freshnessObs :=
            st.freshnessObs + ((hashedOf B).filter (fun a => ¬ a.publishedAt = 0)).length,
          callsBulkUpsert := st.callsBulkUpsert + 1 }, some .bulkUpsertFailed) := by
  simp [processBatch, dedup_isEmpty_false hne, hG, hU, clsOf, existingOf, batchIds, hashedOf]

/-- The state after the metric updates and the successful bulk upsert. -/
def upsertedState (st : PipelineState) (B : List Article) : PipelineState :=
  { st with
      store := bulkUpsertStore st.store (hashedOf B),
      callsGetHashes := st.callsGetHashes + 1,
      dupSkipped := st.dupSkipped + (clsOf st B).2,
      ingested := st.ingested + (hashedOf B).length,
      freshnessObs :=
        st.freshnessObs + ((hashedOf B).filter (fun a => ¬ a.publishedAt = 0)).length,
      callsBulkUpsert := st.callsBulkUpsert + 1 }

theorem processBatch_success (f : Faults) (st : PipelineState) (B : List Article)
    (hne : ¬ dedupById B = []) (hG : f.getHashes = false) (hU : f.bulkUpsert = false) :
    processBatch f st B =
      (if changedOf st B = [] then (upsertedState st B, none)
       else if f.publish then
         ({ upsertedState st B with
             callsPublish := st.callsPublish + 1,
             publishErrors := st.publishErrors + 1 }, none)
       else
         ({ upsertedState st B with
             callsPublish := st.callsPublish + 1,
             channel := st.channel ++ changedOf st B,
             articlesPublished := st.articlesPublished + (changedOf st B).length }, none)) := by
  have hCh : (changedOf st B).isEmpty = (changedOf st B = []) := by
    cases hD : changedOf st B with
    | nil => simp
    | cons a l => simp
  by_cases hc : changedOf st B = []
  · simp [processBatch, dedup_isEmpty_false hne, hG, hU, upsertedState, hc,
      changedOf, clsOf, existingOf, batchIds, hashedOf] at hCh ⊢
  · by_cases hp : f.publish = true
    · simp [processBatch, dedup_isEmpty_false hne, hG, hU, upsertedState, hc, hp,
        changedOf, clsOf, existingOf, batchIds, hashedOf] at hCh ⊢
    · simp only [Bool.not_eq_true] at hp
      simp [processBatch, dedup_isEmpty_false hne, hG, hU, upsertedState, hc, hp,
        changedOf, clsOf, existingOf, batchIds, hashedOf] at hCh ⊢

theorem processBatch_success_noChange (f : Faults) (st : PipelineState) (B : List Article)
    (hne : ¬ dedupById B = []) (hG : f.getHashes = false) (hU : f.bulkUpsert = false)
    (hc : changedOf st B = []) :
    processBatch f st B = (upsertedState st B, none) := by
  rw [processBatch_success f st B hne hG hU]
  simp [hc]

theorem processBatch_success_pubFail (f : Faults) (st : PipelineState) (B : List Article)
    (hne : ¬ dedupById B = []) (hG : f.getHashes = false) (hU : f.bulkUpsert = false)
    (hc : ¬ changedOf st B = []) (hp : f.publish = true) :
    processBatch f st B =
      ({ upsertedState st B with
          callsPublish := st.callsPublish + 1,
          publishErrors := st.publishErrors + 1 }, none) := by
  rw [processBatch_success f st B hne hG hU]
  simp [hc, hp]

theorem processBatch_success_pubOk (f : Faults) (st : PipelineState) (B : List Article)
    (hne : ¬ dedupById B = []) (hG : f.getHashes = false) (hU : f.bulkUpsert = false)
    (hc : ¬ changedOf st B = []) (hp : f.publish = false) :
    processBatch f st B =
      ({ upsertedState st B with
          callsPublish := st.callsPublish + 1,
          channel := st.channel ++ changedOf st B,
          articlesPublished := st.articlesPublished + (changedOf st B).length }, none) := by
  rw [processBatch_success f st B hne hG hU]
  simp [hc, hp]

theorem batchIds_eq (B : List Article) :
    batchIds B = (dedupById B).map (fun a => a.id) := by
  simp only [batchIds, hashedOf, List.map_map]
  rfl

theorem batchIds_nodup (B : List Article) : (batchIds B).Nodup := by
  rw [batchIds_eq]; exact dedup_id_nodup B

theorem mem_batchIds {B : List Article} {a : Article} (ha : a ∈ dedupById B) :
    a.id ∈ batchIds B := by
  rw [batchIds_eq]
  exact List.mem_map_of_mem (fun a => a.id) ha

theorem changedOf_eq_filter (st : PipelineState) (B : List Article) :
    changedOf st B = ((dedupById B).filter (fun a => hashDiffers st a)).map withHash := by
  unfold changedOf clsOf
  rw [classify_fst_eq_filter, hashedOf, List.filter_map]
  congr 1
  apply List.filter_congr
  intro a ha
  show decide (¬ assocFind (existingOf st B) (withHash a).id = some (withHash a).contentHash)
      = decide (hashDiffers st a)
  rw [decide_eq_decide]
  unfold hashDiffers existingOf
  have hfind := assocFind_getContentHashes st.store (batchIds B) a.id (mem_batchIds ha)
  show (¬ assocFind (getContentHashes st.store (batchIds B)) a.id = some (generateHash a)) ↔ _
  rw [hfind]

theorem hashedOf_mem_store {st : PipelineState} {B : List Article} {a : Article}
    (ha : a ∈ dedupById B) :
    storeFind (bulkUpsertStore st.store (hashedOf B)) a.id = some (withHash a) := by
  have hmem : withHash a ∈ hashedOf B := List.mem_map_of_mem withHash ha
  have hnd : ((hashedOf B).map (fun a => a.id)).Nodup := batchIds_nodup B
  exact bulkUpsert_find_mem (hashedOf B) st.store (withHash a) hmem hnd

/-- **C1 as stated** (refuted below): after a successful `processBatch(B)`,
every article of `B` is stored with its freshly computed hash and the set of
ids that reached the event channel is exactly the ids of the articles of `B`
whose id was absent from the queried hash map or whose stored hash differs. -/
def claimBatchPost (f : Faults) (st : PipelineState) (B : List Article) : Prop :=
  ∀ st', processBatch f st B = (st', none) →
    (∀ a ∈ B, storeFind st'.store a.id = some (withHash a)) ∧
    (∀ i : ByteStr,
      i ∈ (st'.channel.drop st.channel.length).map (fun a => a.id) ↔
        i ∈ (B.filter (fun a => hashDiffers st a)).map (fun a => a.id))

/-- The empty pipeline start state. -/
def stEmpty : PipelineState :=
  { store := [], channel := [], dupSkipped := 0, ingested := 0, freshnessObs := 0,
    publishErrors := 0, articlesPublished := 0, callsGetHashes := 0,
    callsBulkUpsert := 0, callsPublish := 0 }

/-- A batch containing `artW1` and a same-id article with a different body. -/
def artW1b : Article := { artW1 with body := [99] }

/-- Faults where only the Kafka batch publish fails. -/
def faultsPub : Faults := { getHashes := false, bulkUpsert := false, publish := true }

/-- All three external calls succeed. -/
def faultsNone : Faults := { getHashes := false, bulkUpsert := false, publish := false }

/-- **C1, counterexample.** With an empty store, a batch holding two articles
of the same id but different bodies, and a failing event publish,
`processBatch` returns success, yet the claim's postcondition fails: the
dropped duplicate is not stored with its own hash, and no id at all reached
the channel although the claimed changed set is non-empty. -/
theorem claimBatchPost_counterexample : ¬ claimBatchPost faultsPub stEmpty [artW1, artW1b] := by
  intro h
  have hpost := h ((processBatch faultsPub stEmpty [artW1, artW1b]).1) rfl
  have hmem := (hpost.2 artW1.id).mpr (by decide)
  revert hmem
  decide

/-- **C1, amended.** After `processBatch(B)` returns successfully, every
article of the in-batch-deduplicated `B` (first occurrence per id wins) is
stored with its freshly computed content hash; when the batch publish
succeeds, the ids appended to the event channel are exactly the ids of the
deduplicated articles whose id was absent from the queried hash map or whose
stored hash differs; when the publish fails the channel is unchanged (yet the
call still returns success). -/
theorem processBatch_post (f : Faults) (st : PipelineState) (B : List Article)
    (st' : PipelineState) (h : processBatch f st B = (st', none)) :
    (∀ a ∈ dedupById B, storeFind st'.store a.id = some (withHash a)) ∧
    (f.publish = false →
      (st'.channel.drop st.channel.length).map (fun a => a.id) =
        ((dedupById B).filter (fun a => hashDiffers st a)).map (fun a => a.id)) ∧
    (f.publish = true → st'.channel = st.channel) := by
  have hfilter :
      (changedOf st B).map (fun a => a.id) =
        ((dedupById B).filter (fun a => hashDiffers st a)).map (fun a => a.id) := by
    rw [changedOf_eq_filter, List.map_map]
    rfl
  by_cases hne : dedupById B = []
  · have hB : B = [] := (dedup_nil_iff B).mp hne
    subst hB
    rw [processBatch_nil] at h
    cases h
    refine ⟨by simp [hne], ?_, ?_⟩ <;> intro _ <;> simp [hne, List.drop_length]
  · cases hG : f.getHashes with
    | true => rw [processBatch_getHashesFail f st B hne hG] at h; cases h
    | false =>
    cases hU : f.bulkUpsert with
    | true => rw [processBatch_bulkFail f st B hne hG hU] at h; cases h
    | false =>
    by_cases hc : changedOf st B = []
    · rw [processBatch_success_noChange f st B hne hG hU hc] at h
      cases h
      refine ⟨fun a ha => hashedOf_mem_store ha, ?_, fun _ => rfl⟩
      intro _
      rw [← hfilter, hc]
      simp [upsertedState, List.drop_length]
    · cases hp : f.publish with
      | true =>
          rw [processBatch_success_pubFail f st B hne hG hU hc hp] at h
          cases h
          exact ⟨fun a ha => hashedOf_mem_store ha,
            fun hcontra => by simp at hcontra, fun _ => rfl⟩
      | false =>
          rw [processBatch_success_pubOk f st B hne hG hU hc hp] at h
          cases h
          refine ⟨fun a ha => hashedOf_mem_store ha, fun _ => ?_,
            fun hcontra => by simp at hcontra⟩
          show ((st.channel ++ changedOf st B).drop st.channel.length).map (fun a => a.id) = _
          rw [List.drop_left, hfilter]

theorem processBatch_post_witness :
    (∀ a ∈ dedupById [artW1],
        storeFind ((processBatch faultsNone stEmpty [artW1]).1).store a.id = some (withHash a)) ∧
    (faultsNone.publish = false →
      (((processBatch faultsNone stEmpty [artW1]).1).channel.drop
          stEmpty.channel.length).map (fun a => a.id) =
        ((dedupById [artW1]).filter (fun a => hashDiffers stEmpty a)).map (fun a => a.id)) ∧
    (faultsNone.publish = true →
      ((processBatch faultsNone stEmpty [artW1]).1).channel = stEmpty.channel) :=
  processBatch_post faultsNone stEmpty [artW1]
    ((processBatch faultsNone stEmpty [artW1]).1) rfl

/-- **C3.** `processBatch` returns an error exactly when the stored-hash
lookup or the bulk upsert fails (on a batch that survives dedup); the error
identifies the failing call; when the bulk upsert fails no events are
emitted; and a publish failure is swallowed: the call returns success, the
channel and the published counter are untouched, and only the publish-error
counter is incremented (by one, when there was a changed set to publish). -/
theorem processBatch_error_semantics (f : Faults) (st : PipelineState) (B : List Article) :
    (¬ (processBatch f st B).2 = none ↔
       (¬ dedupById B = [] ∧ (f.getHashes = true ∨ f.bulkUpsert = true))) ∧
    (¬ dedupById B = [] → f.getHashes = true →
       (processBatch f st B).2 = some .getHashesFailed) ∧
    (¬ dedupById B = [] → f.getHashes = false → f.bulkUpsert = true →
       (processBatch f st B).2 = some .bulkUpsertFailed) ∧
    (f.bulkUpsert = true → (processBatch f st B).1.channel = st.channel) ∧
    (f.getHashes = false → f.bulkUpsert = false → f.publish = true →
       (processBatch f st B).2 = none ∧
       (processBatch f st B).1.channel = st.channel ∧
       (processBatch f st B).1.articlesPublished = st.articlesPublished ∧
       (processBatch f st B).1.publishErrors =
         st.publishErrors + (if changedOf st B = [] then 0 else 1)) := by
  by_cases hne : dedupById B = []
  · have hB : B = [] := (dedup_nil_iff B).mp hne
    subst hB
    rw [processBatch_nil]
    have hch : changedOf st [] = [] := rfl
    simp [hne, hch]
  · cases hG : f.getHashes with
    | true =>
        rw [processBatch_getHashesFail f st B hne hG]
        simp [hne, hG]
    | false =>
    cases hU : f.bulkUpsert with
    | true =>
        rw [processBatch_bulkFail f st B hne hG hU]
        simp [hne, hG, hU]
    | false =>
    by_cases hc : changedOf st B = []
    · rw [processBatch_success_noChange f st B hne hG hU hc]
      simp [hne, hG, hU, hc, upsertedState]
    · cases hp : f.publish with
      | true =>
          rw [processBatch_success_pubFail f st B hne hG hU hc hp]
          simp [hne, hG, hU, hc, upsertedState]
      | false =>
          rw [processBatch_success_pubOk f st B hne hG hU hc hp]
          simp [hne, hG, hU, hc, hp, upsertedState]

theorem processBatch_error_semantics_witness :
    (processBatch { getHashes := false, bulkUpsert := true, publish := false }
        stEmpty [artW1]).2 = some .bulkUpsertFailed :=
  (processBatch_error_semantics
      { getHashes := false, bulkUpsert := true, publish := false } stEmpty [artW1]).2.2.1
    (by decide) rfl rfl

/-- Every article of the just-upserted batch is classified Unchanged when the
store is re-queried: its stored hash is its freshly computed hash. -/
theorem clsOf_after_upsert (st : PipelineState) (B : List Article) (st₁ : PipelineState)
    (hstore : st₁.store = bulkUpsertStore st.store (hashedOf B)) :
    clsOf st₁ B = ([], (dedupById B).length) := by
  have hall : ∀ a ∈ hashedOf B, assocFind (existingOf st₁ B) a.id = some a.contentHash := by
    intro a ha
    have hid : a.id ∈ batchIds B := List.mem_map_of_mem (fun a => a.id) ha
    have hfind := assocFind_getContentHashes st₁.store (batchIds B) a.id hid
    have hmem : storeFind st₁.store a.id = some a := by
      rw [hstore]
      exact bulkUpsert_find_mem (hashedOf B) st.store a ha (batchIds_nodup B)
    unfold existingOf
    rw [hfind, hmem]
    rfl
  have := classify_all_unchanged (existingOf st₁ B) (hashedOf B) hall
  unfold clsOf
  rw [this, hashedOf, List.length_map]

/-- **C5.** If `processBatch(B)` succeeds, then running it again on the same
batch with no interleaving writes classifies every (deduplicated) article as
Unchanged — the classification is `([], |dedup B|)` — and appends nothing to
the event channel, whatever faults the second call encounters. -/
theorem processBatch_idempotent (f₁ f₂ : Faults) (st st₁ : PipelineState) (B : List Article)
    (h : processBatch f₁ st B = (st₁, none)) :
    (processBatch f₂ st₁ B).1.channel = st₁.channel ∧
    clsOf st₁ B = ([], (dedupById B).length) := by
  by_cases hne : dedupById B = []
  · have hB : B = [] := (dedup_nil_iff B).mp hne
    subst hB
    rw [processBatch_nil] at h
    cases h
    refine ⟨by rw [processBatch_nil], ?_⟩
    have : hashedOf ([] : List Article) = [] := rfl
    unfold clsOf
    rw [this, hne]
    rfl
  · have hstore : st₁.store = bulkUpsertStore st.store (hashedOf B) := by
      cases hG : f₁.getHashes with
      | true => rw [processBatch_getHashesFail f₁ st B hne hG] at h; cases h
      | false =>
      cases hU : f₁.bulkUpsert with
      | true => rw [processBatch_bulkFail f₁ st B hne hG hU] at h; cases h
      | false =>
      by_cases hc : changedOf st B = []
      · rw [processBatch_success_noChange f₁ st B hne hG hU hc] at h
        cases h
        rfl
      · cases hp : f₁.publish with
        | true =>
            rw [processBatch_success_pubFail f₁ st B hne hG hU hc hp] at h
            cases h
            rfl
        | false =>
            rw [processBatch_success_pubOk f₁ st B hne hG hU hc hp] at h
            cases h
            rfl
    have hcls := clsOf_after_upsert st B st₁ hstore
    have hchanged : changedOf st₁ B = [] := by
      unfold changedOf
      rw [hcls]
    refine ⟨?_, hcls⟩
    cases hG : f₂.getHashes with
    | true => rw [processBatch_getHashesFail f₂ st₁ B hne hG]
    | false =>
    cases hU : f₂.bulkUpsert with
    | true => rw [processBatch_bulkFail f₂ st₁ B hne hG hU]
    | false =>
    rw [processBatch_success_noChange f₂ st₁ B hne hG hU hchanged]
    rfl

theorem processBatch_idempotent_witness :
    (processBatch faultsNone
        ((processBatch faultsNone stEmpty [artW1]).1) [artW1]).1.channel =
      ((processBatch faultsNone stEmpty [artW1]).1).channel ∧
    clsOf ((processBatch faultsNone stEmpty [artW1]).1) [artW1] =
      ([], (dedupById [artW1]).length) :=
  processBatch_idempotent faultsNone faultsNone stEmpty
    ((processBatch faultsNone stEmpty [artW1]).1) [artW1] rfl

/-- **C10.** On an empty input batch (the only batch dedup empties, as the
second conjunct shows) `processBatch` returns success immediately with the
state — store, channel, every metric, and every external-call counter —
literally unchanged. -/
theorem processBatch_empty_frame (f : Faults) (st : PipelineState) :
    processBatch f st [] = (st, none) ∧ ∀ B : List Article, (dedupById B = [] ↔ B = []) :=
  ⟨rfl, fun B => dedup_nil_iff B⟩

/-! ## The provider adapter crawl loop (generic_provider.go crawlLoop)

`fetchSinglePage` is abstracted as an environment function from page number
to its outcome: an error, or a page of articles with an optional `numPages`
from the transformer's `PageInfo` (nil `PageInfo` is `none`).  The handler's
outcome per page is likewise part of the environment.  A run returns its
result together with the trace of fetched pages and handler outcomes. -/

/-- The outcome of `fetchSinglePage` for one page. -/
inductive FetchRes where
  | err (e : Nat)
  | page (arts : List Article) (info : Option Int)
deriving DecidableEq, Repr

/-- The upstream/handler behaviour a crawl runs against. -/
structure CrawlEnv where
  fetch : Nat → FetchRes
  handlerOk : Nat → Bool

/-- The result of `crawlLoop`: success, the propagated fetch error, or the
too-many-consecutive-handler-errors abort. -/
inductive CrawlResult where
  | ok
  | fetchErr (e : Nat)
  | handlerAbort
deriving DecidableEq, Repr

/-- A crawl run: result, pages fetched in order, handler outcomes in order
(`true` = the handler call succeeded). -/
structure CrawlTrace where
  result : CrawlResult
  fetched : List Nat
  handled : List Bool
deriving DecidableEq, Repr

def maxSafetyPages : Nat := 1000

def maxConsecutiveErrors : Nat := 5

/-- `numPages` update at the end of an iteration: a non-nil `PageInfo`
overwrites it, otherwise it is kept. -/
def updNpInf (np : Int) : Option Int → Int
  | some m => m
  | none => np

/-- The `numPages` update keyed by the whole fetch outcome (an erroring fetch
returns before the update and so keeps it). -/
def updNp (np : Int) : FetchRes → Int
  | .page _ info => updNpInf np info
  | .err _ => np

/-- The body of `crawlLoop` (generic_provider.go lines 81–138); `fuel` is the
number of loop iterations still allowed by the `page < maxSafetyPages` guard
(so `fuel = maxSafetyPages - page`), `numPages` starts at the unknown
sentinel `-1`, `consec` is the consecutive-handler-error counter. -/
def crawlGo (env : CrawlEnv) : Nat → Nat → Int → Nat → CrawlTrace
  | 0, _, _, _ => ⟨.ok, [], []⟩
  | fuel + 1, page, numPages, consec =>
      if ¬ numPages = -1 ∧ numPages ≤ (page : Int) then ⟨.ok, [], []⟩
      else
        match env.fetch page with
        | .err e => ⟨.fetchErr e, [page], []⟩
        | .page arts info =>
            if arts = [] then ⟨.ok, [page], []⟩
            else
              if env.handlerOk page then
                let t := crawlGo env fuel (page + 1) (updNpInf numPages info) 0
                ⟨t.result, page :: t.fetched, true :: t.handled⟩
              else
                if maxConsecutiveErrors ≤ consec + 1 then ⟨.handlerAbort, [page], [false]⟩
                else
                  let t := crawlGo env fuel (page + 1) (updNpInf numPages info) (consec + 1)
                  ⟨t.result, page :: t.fetched, false :: t.handled⟩

/-- `crawlLoop`: 1000 iterations of fuel, page 0, unknown `numPages`, zero
consecutive handler errors. -/
def crawlLoop (env : CrawlEnv) : CrawlTrace :=
  crawlGo env maxSafetyPages 0 (-1) 0

/-- The `numPages` state after the first `k` processed pages starting from
state `(np, page)`. -/
def npFrom (env : CrawlEnv) : Int → Nat → Nat → Int
  | np, _, 0 => np
  | np, page, k + 1 => npFrom env (updNp np (env.fetch page)) (page + 1) k

/-- The `numPages` state of a run of `crawlLoop` after `k` pages. -/
def npAfter (env : CrawlEnv) (k : Nat) : Int := npFrom env (-1) 0 k

/-- The scan of the consecutive-handler-error counter: starting at count `c`,
the handler-outcome sequence drives the counter to `maxConsecutiveErrors`. -/
def abortsWith : Nat → List Bool → Prop
  | _, [] => False
  | _, true :: rest => abortsWith 0 rest
  | c, false :: rest => 5 ≤ c + 1 ∨ abortsWith (c + 1) rest

/-- Five consecutive handler failures occur somewhere in the sequence. -/
def hasFiveFalse (l : List Bool) : Prop :=
  ∃ pre suf, l = pre ++ List.replicate 5 false ++ suf

theorem abortsWith_of_hasFiveFalse {l : List Bool} (h : hasFiveFalse l) :
    ∀ c, abortsWith c l := by
  obtain ⟨pre, suf, rfl⟩ := h
  induction pre with
  | nil =>
      intro c
      show abortsWith c (false :: false :: false :: false :: false :: suf)
      exact Or.inr (Or.inr (Or.inr (Or.inr (Or.inl (by omega)))))
  | cons b pre ih =>
      intro c
      cases b with
      | true => exact ih 0
      | false => exact Or.inr (ih (c + 1))

theorem abortsWith_five {l : List Bool} :
    ∀ c, abortsWith c l →
      hasFiveFalse l ∨ ∃ suf, l = List.replicate (5 - c) false ++ suf := by
  induction l with
  | nil => intro c h; cases h
  | cons b rest ih =>
      intro c h
      cases b with
      | true =>
          rcases ih 0 h with hfive | ⟨suf, hsuf⟩
          · obtain ⟨pre, suf, rfl⟩ := hfive
            exact Or.inl ⟨true :: pre, suf, rfl⟩
          · exact Or.inl ⟨[true], suf, by simp [hsuf]⟩
      | false =>
          rcases h with hc | h
          · refine Or.inr ?_
            have h5 : 5 - c = 0 ∨ 5 - c = 1 := by omega
            rcases h5 with h5 | h5
            · exact ⟨false :: rest, by simp [h5]⟩
            · exact ⟨rest, by simp [h5, List.replicate]⟩
          · rcases ih (c + 1) h with hfive | ⟨suf, hsuf⟩
            · obtain ⟨pre, suf, rfl⟩ := hfive
              exact Or.inl ⟨false :: pre, suf, rfl⟩
            · by_cases hc4 : 4 ≤ c
              · refine Or.inr ?_
                have h5 : 5 - c = 0 ∨ 5 - c = 1 := by omega
                rcases h5 with h5 | h5
                · exact ⟨false :: rest, by simp [h5]⟩
                · exact ⟨rest, by simp [h5, List.replicate]⟩
              · refine Or.inr ⟨suf, ?_⟩
                have h5 : 5 - c = (5 - (c + 1)) + 1 := by omega
                rw [h5, List.replicate, List.cons_append, hsuf]

theorem abortsWith_zero_iff (l : List Bool) : abortsWith 0 l ↔ hasFiveFalse l := by
  constructor
  · intro h
    rcases abortsWith_five 0 h with hfive | ⟨suf, hsuf⟩
    · exact hfive
    · exact ⟨[], suf, by simpa using hsuf⟩
  · intro h
    exact abortsWith_of_hasFiveFalse h 0

theorem crawlGo_abort_iff (env : CrawlEnv) :
    ∀ fuel page np c,
      ((crawlGo env fuel page np c).result = .handlerAbort ↔
        abortsWith c (crawlGo env fuel page np c).handled) := by
  intro fuel
  induction fuel with
  | zero =>
      intro page np c
      simp [crawlGo, abortsWith]
  | succ fuel ih =>
      intro page np c
      show ((crawlGo env (fuel + 1) page np c).result = .handlerAbort ↔ _)
      rw [crawlGo]
      by_cases hstop : ¬ np = -1 ∧ np ≤ (page : Int)
      · simp [hstop, abortsWith]
      · simp only [hstop, if_false]
        cases hf : env.fetch page with
        | err e => simp [abortsWith]
        | page arts info =>
            dsimp only
            by_cases hempty : arts = []
            · simp [hempty, abortsWith]
            · rw [if_neg hempty]
              generalize updNpInf np info = np2
              cases hok : env.handlerOk page with
              | true =>
                  rw [if_pos rfl]
                  dsimp only
                  exact (ih (page + 1) np2 0).trans Iff.rfl
              | false =>
                  rw [if_neg (by simp)]
                  by_cases hc : maxConsecutiveErrors ≤ c + 1
                  · rw [if_pos hc]
                    dsimp only
                    have hab : abortsWith c [false] := Or.inl (by
                      simpa [maxConsecutiveErrors] using hc)
                    exact iff_of_true rfl hab
                  · rw [if_neg hc]
                    dsimp only
                    have hlt : ¬ 5 ≤ c + 1 := by
                      simpa [maxConsecutiveErrors] using hc
                    constructor
                    · intro hres
                      exact Or.inr ((ih (page + 1) np2 (c + 1)).mp hres)
                    · intro hres
                      rcases hres with h5 | hres
                      · exact absurd h5 hlt
                      · exact (ih (page + 1) np2 (c + 1)).mpr hres

/-- **C7.** The crawl aborts with an error exactly when five consecutive
handler invocations fail: a failed handler call short of the fifth
consecutive failure lets the crawl continue (the run does not end in
`handlerAbort`), and any successful call resets the counter, so failure
patterns with no five-in-a-row never abort the crawl. -/
theorem crawl_handler_tolerance (env : CrawlEnv) :
    (crawlLoop env).result = .handlerAbort ↔ hasFiveFalse (crawlLoop env).handled := by
  rw [crawlLoop, crawlGo_abort_iff env maxSafetyPages 0 (-1) 0, abortsWith_zero_iff]

/-- An upstream with endless non-empty pages and an always-failing handler. -/
def envAllFail : CrawlEnv :=
  { fetch := fun _ => .page [artW1] none, handlerOk := fun _ => false }

theorem crawl_handler_tolerance_witness :
    (crawlLoop envAllFail).result = .handlerAbort :=
  (crawl_handler_tolerance envAllFail).mpr ⟨[], [], by rfl⟩

/-- The termination specification of the crawl loop from state
`(page, numPages = np)` with `fuel` iterations left and no pending handler
errors: pages are fetched consecutively, at most `fuel` of them; every
fetched page except possibly the last was a non-empty successful page; no
earlier page was fetched while the `numPages` stop condition held; a
`fetchErr e` run ends exactly at a page whose fetch errored; and an `ok` run
ended by exhausting the cap, by an empty page, or by the `numPages` stop. -/
def CrawlSpec (env : CrawlEnv) (fuel page : Nat) (np : Int) (T : CrawlTrace) : Prop :=
  T.fetched = List.range' page T.fetched.length ∧
  T.fetched.length ≤ fuel ∧
  (∀ k, k + 1 < T.fetched.length →
      ∃ arts info, env.fetch (page + k) = .page arts info ∧ ¬ arts = []) ∧
  (∀ k, k < T.fetched.length →
      ¬ (¬ npFrom env np page k = -1 ∧ npFrom env np page k ≤ ((page + k : Nat) : Int))) ∧
  (∀ e, T.result = .fetchErr e →
      1 ≤ T.fetched.length ∧ env.fetch (page + (T.fetched.length - 1)) = .err e) ∧
  (T.result = .ok →
      (T.fetched.length = fuel ∨
       (∃ arts info, 1 ≤ T.fetched.length ∧
          env.fetch (page + (T.fetched.length - 1)) = .page arts info ∧ arts = []) ∨
       (¬ npFrom env np page T.fetched.length = -1 ∧
        npFrom env np page T.fetched.length ≤ ((page + T.fetched.length : Nat) : Int)))) ∧
  ¬ T.result = .handlerAbort

theorem crawlGo_spec (env : CrawlEnv) (hok : ∀ p, env.handlerOk p = true) :
    ∀ fuel page np, CrawlSpec env fuel page np (crawlGo env fuel page np 0) := by
  intro fuel
  induction fuel with
  | zero =>
      intro page np
      refine ⟨rfl, Nat.le_refl 0, ?_, ?_, ?_, ?_, ?_⟩
      · intro k hk; cases hk
      · intro k hk; cases hk
      · intro e he; cases he
      · intro _; exact Or.inl rfl
      · intro hcontra; cases hcontra
  | succ fuel ih =>
      intro page np
      rw [crawlGo]
      by_cases hstop : ¬ np = -1 ∧ np ≤ (page : Int)
      · rw [if_pos hstop]
        refine ⟨rfl, Nat.zero_le _, ?_, ?_, ?_, ?_, ?_⟩
        · intro k hk; cases hk
        · intro k hk; cases hk
        · intro e he; cases he
        · intro _
          refine Or.inr (Or.inr ⟨hstop.1, ?_⟩)
          show np ≤ ((page + 0 : Nat) : Int)
          simpa using hstop.2
        · intro hcontra; cases hcontra
      · rw [if_neg hstop]
        cases hf : env.fetch page with
        | err e =>
            dsimp only
            refine ⟨rfl, Nat.succ_le_succ (Nat.zero_le _), ?_, ?_, ?_, ?_, ?_⟩
            · intro k hk
              simp at hk
            · intro k hk
              have hk0 : k = 0 := by
                have hk' : k < 1 := by simpa using hk
                omega
              subst hk0
              show ¬ (¬ npFrom env np page 0 = -1 ∧ npFrom env np page 0 ≤ _)
              simpa [npFrom] using hstop
            · intro e' he'
              cases he'
              exact ⟨Nat.le_refl 1, by simpa using hf⟩
            · intro hcontra; cases hcontra
            · intro hcontra; cases hcontra
        | page arts info =>
            dsimp only
            by_cases hempty : arts = []
            · rw [if_pos hempty]
              refine ⟨rfl, Nat.succ_le_succ (Nat.zero_le _), ?_, ?_, ?_, ?_, ?_⟩
              · intro k hk
                simp at hk
              · intro k hk
                have hk0 : k = 0 := by
                  have hk' : k < 1 := by simpa using hk
                  omega
                subst hk0
                show ¬ (¬ npFrom env np page 0 = -1 ∧ npFrom env np page 0 ≤ _)
                simpa [npFrom] using hstop
              · intro e' he'; cases he'
              · intro _
                exact Or.inr (Or.inl ⟨arts, info, Nat.le_refl 1, by simpa using hf, hempty⟩)
              · intro hcontra; cases hcontra
            · rw [if_neg hempty, if_pos (hok page)]
              show CrawlSpec env (fuel + 1) page np
                ⟨(crawlGo env fuel (page + 1) (updNpInf np info) 0).result,
                 page :: (crawlGo env fuel (page + 1) (updNpInf np info) 0).fetched,
                 true :: (crawlGo env fuel (page + 1) (updNpInf np info) 0).handled⟩
              obtain ⟨ih1, ih2, ih3, ih4, ih5, ih6, ih7⟩ := ih (page + 1) (updNpInf np info)
              have hnp : ∀ k, npFrom env np page (k + 1) =
                  npFrom env (updNpInf np info) (page + 1) k := by
                intro k
                show npFrom env (updNp np (env.fetch page)) (page + 1) k = _
                rw [hf]
                rfl
              set g := crawlGo env fuel (page + 1) (updNpInf np info) 0 with hg
              refine ⟨?_, ?_, ?_, ?_, ?_, ?_, ?_⟩
              · show page :: g.fetched = List.range' page (page :: g.fetched).length
                rw [List.length_cons, List.range'_succ]
                exact congrArg (page :: ·) ih1
              · show (page :: g.fetched).length ≤ fuel + 1
                rw [List.length_cons]
                exact Nat.succ_le_succ ih2
              · intro k hk
                have hk' : k + 1 < g.fetched.length + 1 := hk
                cases k with
                | zero => exact ⟨arts, info, by simpa using hf, hempty⟩
                | succ j =>
                    have hj : j + 1 < g.fetched.length := by omega
                    obtain ⟨a2, i2, hfe, hne⟩ := ih3 j hj
                    refine ⟨a2, i2, ?_, hne⟩
                    have harith : page + (j + 1) = page + 1 + j := by omega
                    rw [harith]
                    exact hfe
              · intro k hk
                have hk' : k < g.fetched.length + 1 := hk
                cases k with
                | zero =>
                    show ¬ (¬ npFrom env np page 0 = -1 ∧
                      npFrom env np page 0 ≤ ((page + 0 : Nat) : Int))
                    simpa [npFrom] using hstop
                | succ j =>
                    have hj : j < g.fetched.length := by omega
                    have h4 := ih4 j hj
                    show ¬ (¬ npFrom env np page (j + 1) = -1 ∧
                      npFrom env np page (j + 1) ≤ ((page + (j + 1) : Nat) : Int))
                    rw [hnp j]
                    have harith : ((page + (j + 1) : Nat) : Int) =
                        ((page + 1 + j : Nat) : Int) := by
                      push_cast
                      ring
                    rw [harith]
                    exact h4
              · intro e he
                have he' : g.result = .fetchErr e := he
                have h5 := ih5 e he'
                have h51 := h5.1
                constructor
                · show 1 ≤ (page :: g.fetched).length
                  rw [List.length_cons]
                  omega
                · show env.fetch (page + ((page :: g.fetched).length - 1)) = .err e
                  have harith : page + ((page :: g.fetched).length - 1) =
                      page + 1 + (g.fetched.length - 1) := by
                    rw [List.length_cons]
                    omega
                  rw [harith]
                  exact h5.2
              · intro hres
                have hres' : g.result = .ok := hres
                rcases ih6 hres' with hcap | ⟨a2, i2, h1, hfe, hEmp⟩ | ⟨hnp1, hnp2⟩
                · refine Or.inl ?_
                  show (page :: g.fetched).length = fuel + 1
                  rw [List.length_cons]
                  omega
                · refine Or.inr (Or.inl ⟨a2, i2, ?_, ?_, hEmp⟩)
                  · show 1 ≤ (page :: g.fetched).length
                    rw [List.length_cons]
                    omega
                  · show env.fetch (page + ((page :: g.fetched).length - 1)) = .page a2 i2
                    have harith : page + ((page :: g.fetched).length - 1) =
                        page + 1 + (g.fetched.length - 1) := by
                      rw [List.length_cons]
                      omega
                    rw [harith]
                    exact hfe
                · refine Or.inr (Or.inr ?_)
                  show ¬ npFrom env np page ((page :: g.fetched).length) = -1 ∧
                    npFrom env np page ((page :: g.fetched).length) ≤
                      ((page + (page :: g.fetched).length : Nat) : Int)
                  rw [List.length_cons, hnp g.fetched.length]
                  refine ⟨hnp1, ?_⟩
                  have harith : ((page + (g.fetched.length + 1) : Nat) : Int) =
                      ((page + 1 + g.fetched.length : Nat) : Int) := by
                    push_cast
                    ring
                  rw [harith]
                  exact hnp2
              · exact ih7

/-- **C6.** With a per-page handler that succeeds, a crawl fetches at most
1000 pages, consecutively from page 0; a page is only fetched when the
known-`numPages` stop condition did not hold at its turn; every fetched page
but the last was a non-empty success; a run ends in the fetch's error exactly
when the last fetched page errored; and a successful run ended either at the
1000-page safety cap, or on a zero-article page, or because `numPages` was
known and reached — the first condition to hold, since no earlier page is
fetched once a stop condition holds. -/
theorem crawl_termination (env : CrawlEnv) (hok : ∀ p, env.handlerOk p = true) :
    (crawlLoop env).fetched.length ≤ 1000 ∧
    (crawlLoop env).fetched = List.range' 0 (crawlLoop env).fetched.length ∧
    (∀ k, k + 1 < (crawlLoop env).fetched.length →
        ∃ arts info, env.fetch k = .page arts info ∧ ¬ arts = []) ∧
    (∀ k, k < (crawlLoop env).fetched.length →
        ¬ (¬ npAfter env k = -1 ∧ npAfter env k ≤ (k : Int))) ∧
    (∀ e, (crawlLoop env).result = .fetchErr e →
        1 ≤ (crawlLoop env).fetched.length ∧
        env.fetch ((crawlLoop env).fetched.length - 1) = .err e) ∧
    ((crawlLoop env).result = .ok →
        ((crawlLoop env).fetched.length = 1000 ∨
         (∃ arts info, 1 ≤ (crawlLoop env).fetched.length ∧
            env.fetch ((crawlLoop env).fetched.length - 1) = .page arts info ∧ arts = []) ∨
         (¬ npAfter env ((crawlLoop env).fetched.length) = -1 ∧
          npAfter env ((crawlLoop env).fetched.length) ≤
            ((crawlLoop env).fetched.length : Int)))) ∧
    ¬ (crawlLoop env).result = .handlerAbort := by
  obtain ⟨h1, h2, h3, h4, h5, h6, h7⟩ := crawlGo_spec env hok maxSafetyPages 0 (-1)
  refine ⟨h2, h1, ?_, ?_, ?_, ?_, h7⟩
  · intro k hk
    obtain ⟨a2, i2, hfe, hne⟩ := h3 k hk
    exact ⟨a2, i2, by simpa using hfe, hne⟩
  · intro k hk
    have h := h4 k hk
    simpa [npAfter] using h
  · intro e he
    have h := h5 e he
    exact ⟨h.1, by simpa using h.2⟩
  · intro hres
    rcases h6 hres with hcap | ⟨a2, i2, h1', hfe, hEmp⟩ | ⟨hnp1, hnp2⟩
    · exact Or.inl hcap
    · exact Or.inr (Or.inl ⟨a2, i2, h1', by simpa using hfe, hEmp⟩)
    · refine Or.inr (Or.inr ⟨by simpa [npAfter] using hnp1, ?_⟩)
      have := hnp2
      simpa [npAfter] using this

/-- An upstream whose first page reports `numPages = 1`. -/
def envOnePage : CrawlEnv :=
  { fetch := fun _ => .page [artW1] (some 1), handlerOk := fun _ => true }

theorem crawl_termination_witness :
    (crawlLoop envOnePage).fetched.length ≤ 1000 :=
  (crawl_termination envOnePage (fun _ => rfl)).1

/-! ## The per-page request retry loop (generic_provider.go executeRequest)

The loop body's interactions are abstracted per attempt index: building and
performing the request either fails to construct (`reqErr`), fails on the
network (`netErr`), or yields an HTTP status; the context may be cancelled
during the backoff preceding a retry. -/

/-- What attempt `i` of the request would observe. -/
inductive AttemptRes where
  | reqErr
  | netErr
  | status (code : Nat)
deriving DecidableEq, Repr

/-- The environment of one `executeRequest` call. -/
structure ReqEnv where
  attempt : Nat → AttemptRes
  cancelled : Nat → Bool

/-- How `executeRequest`'s retry loop ends. -/
inductive ReqOutcome where
  | ok
  | cancelled
  | reqFailed
  | clientErr (code : Nat)
  | maxRetries
deriving DecidableEq, Repr

/-- The outcome of the loop, the attempt indices performed, and the backoff
waits completed (in milliseconds). -/
structure ReqTrace where
  outcome : ReqOutcome
  attempts : List Nat
  waits : List Nat
deriving DecidableEq, Repr

def maxRetriesReq : Nat := 3

/-- The retry loop of `executeRequest` (generic_provider.go lines 197–254):
`rem` iterations left of `for i := 0; i <= maxRetries; i++`, current attempt
index `i`, current backoff.  Before every attempt but the first, the loop
waits for the backoff (cancellable) and then doubles it.  A network error or
an HTTP status of at least 500 retries; any other non-200 status and a
request-construction error fail immediately. -/
def execGo (env : ReqEnv) : Nat → Nat → Nat → ReqTrace
  | 0, _, _ => ⟨.maxRetries, [], []⟩
  | rem + 1, i, backoff =>
      if 0 < i ∧ env.cancelled i then ⟨.cancelled, [], []⟩
      else
        let waited : List Nat := if 0 < i then [backoff] else []
        let b2 := if 0 < i then backoff * 2 else backoff
        match env.attempt i with
        | .reqErr => ⟨.reqFailed, [i], waited⟩
        | .netErr =>
            let t := execGo env rem (i + 1) b2
            ⟨t.outcome, i :: t.attempts, waited ++ t.waits⟩
        | .status code =>
            if 500 ≤ code then
              let t := execGo env rem (i + 1) b2
              ⟨t.outcome, i :: t.attempts, waited ++ t.waits⟩
            else if ¬ code = 200 then ⟨.clientErr code, [i], waited⟩
            else ⟨.ok, [i], waited⟩

/-- One full request: up to `maxRetries + 1` attempts, starting backoff
500 ms. -/
def executeRequest (env : ReqEnv) : ReqTrace := execGo env (maxRetriesReq + 1) 0 500

/-- An attempt outcome the loop retries on: a network error or a 5xx. -/
def retryable (r : AttemptRes) : Prop :=
  r = .netErr ∨ ∃ code, r = .status code ∧ 500 ≤ code

/-- The behaviour of the retry loop from a general state. -/
def ExecSpec (env : ReqEnv) (rem i b : Nat) (T : ReqTrace) : Prop :=
  T.attempts = List.range' i T.attempts.length ∧
  T.attempts.length ≤ rem ∧
  T.waits = (List.range T.waits.length).map (fun k => b * 2 ^ k) ∧
  T.waits.length = (if i = 0 then T.attempts.length - 1 else T.attempts.length) ∧
  (∀ j, j + 1 < T.attempts.length → retryable (env.attempt (i + j))) ∧
  (T.outcome = .ok → 1 ≤ T.attempts.length ∧
      env.attempt (i + (T.attempts.length - 1)) = .status 200) ∧
  (T.outcome = .reqFailed → 1 ≤ T.attempts.length ∧
      env.attempt (i + (T.attempts.length - 1)) = .reqErr) ∧
  (∀ code, T.outcome = .clientErr code → 1 ≤ T.attempts.length ∧
      env.attempt (i + (T.attempts.length - 1)) = .status code ∧
      code < 500 ∧ ¬ code = 200) ∧
  (T.outcome = .maxRetries → T.attempts.length = rem ∧
      (∀ j, j < T.attempts.length → retryable (env.attempt (i + j)))) ∧
  (T.outcome = .cancelled → env.cancelled (i + T.attempts.length) = true ∧
      1 ≤ i + T.attempts.length ∧ T.attempts.length < rem)

theorem range_map_double (b n : Nat) :
    b :: (List.range n).map (fun k => b * 2 * 2 ^ k) =
      (List.range (n + 1)).map (fun k => b * 2 ^ k) := by
  rw [List.range_succ_eq_map, List.map_cons, List.map_map]
  refine congrArg₂ (· :: ·) (by simp) ?_
  apply List.map_congr_left
  intro k _
  show b * 2 * 2 ^ k = b * 2 ^ (k + 1)
  rw [pow_succ]
  ring

theorem ExecSpec_cons (env : ReqEnv) (rem i b : Nat) (t : ReqTrace)
    (hretry : retryable (env.attempt i))
    (hIH : ExecSpec env rem (i + 1) (if 0 < i then b * 2 else b) t) :
    ExecSpec env (rem + 1) i b
      ⟨t.outcome, i :: t.attempts, (if 0 < i then [b] else []) ++ t.waits⟩ := by
  obtain ⟨j1, j2, j3, j4, j5, j6, j7, j8, j9, j10⟩ := hIH
  have hj4 : t.waits.length = t.attempts.length := by
    simpa using j4
  by_cases hi : 0 < i
  · rw [if_pos hi] at j3 ⊢
    refine ⟨?_, ?_, ?_, ?_, ?_, ?_, ?_, ?_, ?_, ?_⟩
    · show i :: t.attempts = List.range' i (i :: t.attempts).length
      rw [List.length_cons, List.range'_succ]
      exact congrArg (i :: ·) j1
    · show (i :: t.attempts).length ≤ rem + 1
      rw [List.length_cons]
      exact Nat.succ_le_succ j2
    · show [b] ++ t.waits = (List.range ([b] ++ t.waits).length).map (fun k => b * 2 ^ k)
      rw [List.singleton_append, List.length_cons]
      conv_lhs => rw [j3]
      exact range_map_double b t.waits.length
    · show ([b] ++ t.waits).length = if i = 0 then _ else (i :: t.attempts).length
      rw [if_neg (by omega), List.singleton_append, List.length_cons, List.length_cons, hj4]
    · intro j hj
      have hj' : j + 1 < t.attempts.length + 1 := by simpa using hj
      cases j with
      | zero => simpa using hretry
      | succ m =>
          have := j5 m (by omega)
          have harith : i + (m + 1) = i + 1 + m := by omega
          rw [harith]
          exact this
    · intro hout
      have h := j6 hout
      refine ⟨by simp, ?_⟩
      show env.attempt (i + ((i :: t.attempts).length - 1)) = .status 200
      have harith : i + ((i :: t.attempts).length - 1) =
          i + 1 + (t.attempts.length - 1) := by
        rw [List.length_cons]
        have := h.1
        omega
      rw [harith]
      exact h.2
    · intro hout
      have h := j7 hout
      refine ⟨by simp, ?_⟩
      show env.attempt (i + ((i :: t.attempts).length - 1)) = .reqErr
      have harith : i + ((i :: t.attempts).length - 1) =
          i + 1 + (t.attempts.length - 1) := by
        rw [List.length_cons]
        have := h.1
        omega
      rw [harith]
      exact h.2
    · intro code hout
      have h := j8 code hout
      refine ⟨by simp, ?_, h.2.2⟩
      show env.attempt (i + ((i :: t.attempts).length - 1)) = .status code
      have harith : i + ((i :: t.attempts).length - 1) =
          i + 1 + (t.attempts.length - 1) := by
        rw [List.length_cons]
        have := h.1
        omega
      rw [harith]
      exact h.2.1
    · intro hout
      have h := j9 hout
      constructor
      · show (i :: t.attempts).length = rem + 1
        rw [List.length_cons, h.1]
      · intro j hj
        have hj' : j < t.attempts.length + 1 := by simpa using hj
        cases j with
        | zero => simpa using hretry
        | succ m =>
            have := h.2 m (by omega)
            have harith : i + (m + 1) = i + 1 + m := by omega
            rw [harith]
            exact this
    · intro hout
      have h := j10 hout
      refine ⟨?_, by omega, ?_⟩
      · show env.cancelled (i + (i :: t.attempts).length) = true
        have harith : i + (i :: t.attempts).length = i + 1 + t.attempts.length := by
          rw [List.length_cons]
          omega
        rw [harith]
        exact h.1
      · show (i :: t.attempts).length < rem + 1
        rw [List.length_cons]
        exact Nat.succ_lt_succ h.2.2
  · rw [if_neg hi] at j3 ⊢
    have hi0 : i = 0 := by omega
    subst hi0
    refine ⟨?_, ?_, ?_, ?_, ?_, ?_, ?_, ?_, ?_, ?_⟩
    · show 0 :: t.attempts = List.range' 0 (0 :: t.attempts).length
      rw [List.length_cons, List.range'_succ]
      exact congrArg (0 :: ·) j1
    · show (0 :: t.attempts).length ≤ rem + 1
      rw [List.length_cons]
      exact Nat.succ_le_succ j2
    · show [] ++ t.waits = (List.range ([] ++ t.waits).length).map (fun k => b * 2 ^ k)
      simpa using j3
    · show ([] ++ t.waits).length = if (0 : Nat) = 0 then (0 :: t.attempts).length - 1 else _
      rw [if_pos rfl, List.nil_append, List.length_cons, hj4]
      omega
    · intro j hj
      have hj' : j + 1 < t.attempts.length + 1 := by simpa using hj
      cases j with
      | zero => simpa using hretry
      | succ m =>
          have := j5 m (by omega)
          have harith : 0 + (m + 1) = 0 + 1 + m := by omega
          rw [harith]
          exact this
    · intro hout
      have h := j6 hout
      refine ⟨by simp, ?_⟩
      show env.attempt (0 + ((0 :: t.attempts).length - 1)) = .status 200
      have harith : 0 + ((0 :: t.attempts).length - 1) =
          0 + 1 + (t.attempts.length - 1) := by
        rw [List.length_cons]
        have := h.1
        omega
      rw [harith]
      exact h.2
    · intro hout
      have h := j7 hout
      refine ⟨by simp, ?_⟩
      show env.attempt (0 + ((0 :: t.attempts).length - 1)) = .reqErr
      have harith : 0 + ((0 :: t.attempts).length - 1) =
          0 + 1 + (t.attempts.length - 1) := by
        rw [List.length_cons]
        have := h.1
        omega
      rw [harith]
      exact h.2
    · intro code hout
      have h := j8 code hout
      refine ⟨by simp, ?_, h.2.2⟩
      show env.attempt (0 + ((0 :: t.attempts).length - 1)) = .status code
      have harith : 0 + ((0 :: t.attempts).length - 1) =
          0 + 1 + (t.attempts.length - 1) := by
        rw [List.length_cons]
        have := h.1
        omega
      rw [harith]
      exact h.2.1
    · intro hout
      have h := j9 hout
      constructor
      · show (0 :: t.attempts).length = rem + 1
        rw [List.length_cons, h.1]
      · intro j hj
        have hj' : j < t.attempts.length + 1 := by simpa using hj
        cases j with
        | zero => simpa using hretry
        | succ m =>
            have := h.2 m (by omega)
            have harith : 0 + (m + 1) = 0 + 1 + m := by omega
            rw [harith]
            exact this
    · intro hout
      have h := j10 hout
      refine ⟨?_, by rw [List.length_cons]; omega, ?_⟩
      · show env.cancelled (0 + (0 :: t.attempts).length) = true
        have harith : 0 + (0 :: t.attempts).length = 0 + 1 + t.attempts.length := by
          rw [List.length_cons]
          omega
        rw [harith]
        exact h.1
      · show (0 :: t.attempts).length < rem + 1
        rw [List.length_cons]
        exact Nat.succ_lt_succ h.2.2

theorem execGo_spec (env : ReqEnv) : ∀ rem i b, ExecSpec env rem i b (execGo env rem i b) := by
  intro rem
  induction rem with
  | zero =>
      intro i b
      refine ⟨rfl, Nat.le_refl 0, rfl, ?_, ?_, ?_, ?_, ?_, ?_, ?_⟩
      · by_cases hi : i = 0 <;> simp [execGo, hi]
      · intro j hj
        exact absurd (show j + 1 < 0 from hj) (by omega)
      · intro hout; cases hout
      · intro hout; cases hout
      · intro code hout; cases hout
      · intro _
        exact ⟨rfl, fun j hj => absurd (show j < 0 from hj) (by omega)⟩
      · intro hout; cases hout
  | succ rem ih =>
      intro i b
      rw [execGo]
      by_cases hcan : 0 < i ∧ env.cancelled i = true
      · rw [if_pos hcan]
        have hi1 := hcan.1
        refine ⟨rfl, Nat.zero_le _, rfl, ?_, ?_, ?_, ?_, ?_, ?_, ?_⟩
        · show (0 : Nat) = if i = 0 then 0 - 1 else 0
          by_cases hi : i = 0 <;> simp [hi]
        · intro j hj
          exact absurd (show j + 1 < 0 from hj) (by omega)
        · intro hout; cases hout
        · intro hout; cases hout
        · intro code hout; cases hout
        · intro hout; cases hout
        · intro _
          refine ⟨?_, show 1 ≤ i + 0 by omega, show (0 : Nat) < rem + 1 by omega⟩
          show env.cancelled (i + 0) = true
          simpa using hcan.2
      · rw [if_neg hcan]
        cases hat : env.attempt i with
        | reqErr =>
            dsimp only
            by_cases hi : 0 < i
            · rw [if_pos hi]
              refine ⟨rfl, Nat.succ_le_succ (Nat.zero_le rem), by simp [List.range_succ],
                by simp [show ¬ i = 0 by omega], ?_, ?_, ?_, ?_, ?_, ?_⟩
              · intro j hj
                exact absurd (show j + 1 < 1 from hj) (by omega)
              · intro hout; cases hout
              · intro _
                exact ⟨Nat.le_refl 1, by simpa using hat⟩
              · intro code hout; cases hout
              · intro hout; cases hout
              · intro hout; cases hout
            · rw [if_neg hi]
              refine ⟨rfl, Nat.succ_le_succ (Nat.zero_le rem), rfl,
                by simp [show i = 0 by omega], ?_, ?_, ?_, ?_, ?_, ?_⟩
              · intro j hj
                exact absurd (show j + 1 < 1 from hj) (by omega)
              · intro hout; cases hout
              · intro _
                exact ⟨Nat.le_refl 1, by simpa using hat⟩
              · intro code hout; cases hout
              · intro hout; cases hout
              · intro hout; cases hout
        | netErr =>
            dsimp only
            exact ExecSpec_cons env rem i b _ (Or.inl hat)
              (ih (i + 1) (if 0 < i then b * 2 else b))
        | status code =>
            dsimp only
            by_cases h5 : 500 ≤ code
            · rw [if_pos h5]
              exact ExecSpec_cons env rem i b _ (Or.inr ⟨code, hat, h5⟩)
                (ih (i + 1) (if 0 < i then b * 2 else b))
            · rw [if_neg h5]
              by_cases h200 : ¬ code = 200
              · rw [if_pos h200]
                by_cases hi : 0 < i
                · rw [if_pos hi]
                  refine ⟨rfl, Nat.succ_le_succ (Nat.zero_le rem), by simp [List.range_succ],
                    by simp [show ¬ i = 0 by omega],
                    ?_, ?_, ?_, ?_, ?_, ?_⟩
                  · intro j hj
                    exact absurd (show j + 1 < 1 from hj) (by omega)
                  · intro hout; cases hout
                  · intro hout; cases hout
                  · intro code' hout
                    injection hout with hcode
                    subst hcode
                    exact ⟨Nat.le_refl 1, by simpa using hat, by omega, h200⟩
                  · intro hout; cases hout
                  · intro hout; cases hout
                · rw [if_neg hi]
                  refine ⟨rfl, Nat.succ_le_succ (Nat.zero_le rem), rfl,
                    by simp [show i = 0 by omega],
                    ?_, ?_, ?_, ?_, ?_, ?_⟩
                  · intro j hj
                    exact absurd (show j + 1 < 1 from hj) (by omega)
                  · intro hout; cases hout
                  · intro hout; cases hout
                  · intro code' hout
                    injection hout with hcode
                    subst hcode
                    exact ⟨Nat.le_refl 1, by simpa using hat, by omega, h200⟩
                  · intro hout; cases hout
                  · intro hout; cases hout
              · rw [if_neg h200]
                have hc200 : code = 200 := not_not.mp h200
                subst hc200
                by_cases hi : 0 < i
                · rw [if_pos hi]
                  refine ⟨rfl, Nat.succ_le_succ (Nat.zero_le rem), by simp [List.range_succ],
                    by simp [show ¬ i = 0 by omega],
                    ?_, ?_, ?_, ?_, ?_, ?_⟩
                  · intro j hj
                    exact absurd (show j + 1 < 1 from hj) (by omega)
                  · intro _
                    exact ⟨Nat.le_refl 1, by simpa using hat⟩
                  · intro hout; cases hout
                  · intro code' hout; cases hout
                  · intro hout; cases hout
                  · intro hout; cases hout
                · rw [if_neg hi]
                  refine ⟨rfl, Nat.succ_le_succ (Nat.zero_le rem), rfl,
                    by simp [show i = 0 by omega],
                    ?_, ?_, ?_, ?_, ?_, ?_⟩
                  · intro j hj
                    exact absurd (show j + 1 < 1 from hj) (by omega)
                  · intro _
                    exact ⟨Nat.le_refl 1, by simpa using hat⟩
                  · intro hout; cases hout
                  · intro code' hout; cases hout
                  · intro hout; cases hout
                  · intro hout; cases hout

/-- **C8.** A page fetch makes at most 4 attempts (3 retries after the
initial one), in order; the backoff waits are 500 ms, 1000 ms, 2000 ms — one
fewer than the attempts made; every attempt except the last was retried
only because of a network error or an HTTP status of at least 500; and the
loop's endings: status 200 succeeds, a request-construction error or a
non-200 status below 500 fails immediately on that attempt, exhausting all
4 attempts yields the max-retries error, and a context cancellation during a
backoff ends the call before a 4th attempt with no further wait. -/
theorem executeRequest_spec (env : ReqEnv) :
    (executeRequest env).attempts = List.range (executeRequest env).attempts.length ∧
    (executeRequest env).attempts.length ≤ 4 ∧
    (executeRequest env).waits =
      (List.range (executeRequest env).waits.length).map (fun k => 500 * 2 ^ k) ∧
    (executeRequest env).waits.length = (executeRequest env).attempts.length - 1 ∧
    (∀ j, j + 1 < (executeRequest env).attempts.length → retryable (env.attempt j)) ∧
    ((executeRequest env).outcome = .ok →
        env.attempt ((executeRequest env).attempts.length - 1) = .status 200) ∧
    ((executeRequest env).outcome = .reqFailed →
        env.attempt ((executeRequest env).attempts.length - 1) = .reqErr) ∧
    (∀ code, (executeRequest env).outcome = .clientErr code →
        env.attempt ((executeRequest env).attempts.length - 1) = .status code ∧
        code < 500 ∧ ¬ code = 200) ∧
    ((executeRequest env).outcome = .maxRetries →
        (executeRequest env).attempts.length = 4 ∧
        (∀ j, j < 4 → retryable (env.attempt j))) ∧
    ((executeRequest env).outcome = .cancelled →
        env.cancelled ((executeRequest env).attempts.length) = true ∧
        (executeRequest env).attempts.length ≤ 3) := by
  obtain ⟨j1, j2, j3, j4, j5, j6, j7, j8, j9, j10⟩ :=
    execGo_spec env (maxRetriesReq + 1) 0 500
  refine ⟨?_, j2, j3, ?_, ?_, ?_, ?_, ?_, ?_, ?_⟩
  · rw [List.range_eq_range']
    exact j1
  · simpa using j4
  · intro j hj
    simpa using j5 j hj
  · intro hout
    simpa using (j6 hout).2
  · intro hout
    simpa using (j7 hout).2
  · intro code hout
    have h := j8 code hout
    exact ⟨by simpa using h.2.1, h.2.2⟩
  · intro hout
    have h := j9 hout
    have hlen : (execGo env (maxRetriesReq + 1) 0 500).attempts.length = 4 := h.1
    refine ⟨h.1, ?_⟩
    intro j hj
    have := h.2 j (by omega)
    simpa using this
  · intro hout
    have h := j10 hout
    have hlt : (executeRequest env).attempts.length < 4 := h.2.2
    exact ⟨by simpa using h.1, by omega⟩

/-- A request whose first attempt sees a 503, second a network error, third
a 200. -/
def envReqW : ReqEnv :=
  { attempt := fun i => if i = 0 then .status 503 else if i = 1 then .netErr else .status 200,
    cancelled := fun _ => false }

theorem executeRequest_spec_witness : retryable (envReqW.attempt 0) :=
  (executeRequest_spec envReqW).2.2.2.2.1 0 (by decide)

/-! ## The CMS sync consumer with DLQ (KafkaConsumer.Start +
CMSSyncService.handleEvent)

`reader.ReadMessage` with a consumer group commits the delivered message's
offset, so `read` counts every message the loop consumes; the loop holds no
other offset state and never re-delivers a message itself. -/

/-- A delivered Kafka message: a payload that fails to deserialize, or an
article. -/
inductive KMsg where
  | malformed
  | article (a : Article)
deriving DecidableEq, Repr

/-- The environment of a consumer run: which articles the CMS gateway
accepts, and which DLQ publishes succeed. -/
structure SyncEnv where
  syncOk : Article → Bool
  dlqOk : Article → Bool

/-- Observable consumer state: messages read (offset committed), handler
invocations, DLQ contents, and the three counters touched. -/
structure ConsumerState where
  read : Nat
  handled : List Article
  dlq : List Article
  dlqPublished : Nat
  cmsErrors : Nat
  cmsSuccess : Nat
deriving DecidableEq, Repr

def consumerState0 : ConsumerState := ⟨0, [], [], 0, 0, 0⟩

/-- One iteration of `KafkaConsumer.Start`: a malformed payload is logged
and skipped; otherwise `handleEvent` syncs the article to the CMS
(`cms_sync_errors_total` on failure, success counter otherwise); on failure
the original article is published to the DLQ, incrementing
`dlq_messages_published_total` on success; a DLQ publish failure is only
logged, and the loop continues with the next message in every case. -/
def consumerStep (env : SyncEnv) (st : ConsumerState) (m : KMsg) : ConsumerState :=
  match m with
  | .malformed => { st with read := st.read + 1 }
  | .article a =>
      let st1 := { st with read := st.read + 1, handled := st.handled ++ [a] }
      if env.syncOk a then { st1 with cmsSuccess := st1.cmsSuccess + 1 }
      else
        let st2 := { st1 with cmsErrors := st1.cmsErrors + 1 }
        if env.dlqOk a then
          { st2 with dlq := st2.dlq ++ [a], dlqPublished := st2.dlqPublished + 1 }
        else st2

/-- The consumer loop over a finite list of delivered messages. -/
def consumerRun (env : SyncEnv) (msgs : List KMsg) : ConsumerState :=
  msgs.foldl (consumerStep env) consumerState0

/-- CMS sync fails for `artW1`; every DLQ publish fails. -/
def syncEnvDlqFail : SyncEnv :=
  { syncOk := fun a => decide (¬ a = artW1), dlqOk := fun _ => false }

/-- CMS sync always fails; the DLQ publish succeeds. -/
def syncEnvDlqOk : SyncEnv :=
  { syncOk := fun _ => false, dlqOk := fun _ => true }

/-- **C4** evaluated on the code.  First conjunct — the failing input: the
CMS sync of `artW1` fails and so does its DLQ publish, yet the consumer
commits both offsets (`read = 2`), handles `artW1` exactly once, and simply
moves on to the next message: nothing holds the offset back for re-delivery,
contradicting the claim.  Second conjunct — the part of the claim the code
does satisfy: on CMS failure with a working DLQ, the article is published to
the DLQ and `dlq_messages_published_total` is incremented. -/
theorem consumer_dlq_behaviour :
    consumerRun syncEnvDlqFail [.article artW1, .article artW3] =
      { read := 2, handled := [artW1, artW3], dlq := [], dlqPublished := 0,
        cmsErrors := 1, cmsSuccess := 1 } ∧
    consumerRun syncEnvDlqOk [.article artW1] =
      { read := 1, handled := [artW1], dlq := [artW1], dlqPublished := 1,
        cmsErrors := 1, cmsSuccess := 0 } := by
  exact ⟨by decide, by decide⟩

/-! ## The single-flight worker guard (service.go worker, lines 112–133) -/

/-- What one worker goroutine is doing: waiting on the jobs channel, or
crawling the named provider (the span between a winning `LoadOrStore` and
the deferred `Delete`). -/
inductive WorkerSt where
  | idle
  | running (name : Nat)
deriving DecidableEq, Repr

/-- The shared state: the `activeProviders` map (as the list of its keys)
and each worker's status. -/
structure PoolState where
  active : List Nat
  workers : List WorkerSt
deriving DecidableEq, Repr

/-- The transitions of the worker pool: a worker pulling a job for `name`
either loses the `LoadOrStore` race (the name is present — it logs a skip
and drops the job, staying idle), or atomically inserts the name and starts
crawling; when the crawl returns — whether it succeeded or failed — the
deferred `Delete` removes the entry and the worker goes idle. -/
inductive PoolStep : PoolState → PoolState → Prop where
  | pull_skip (s : PoolState) (w : Nat) (name : Nat)
      (hw : s.workers.get? w = some .idle) (hname : name ∈ s.active) :
      PoolStep s s
  | pull_run (s : PoolState) (w : Nat) (name : Nat)
      (hw : s.workers.get? w = some .idle) (hname : ¬ name ∈ s.active) :
      PoolStep s { active := name :: s.active, workers := s.workers.set w (.running name) }
  | finish (s : PoolState) (w : Nat) (name : Nat) (ok : Bool)
      (hw : s.workers.get? w = some (.running name)) :
      PoolStep s { active := s.active.erase name, workers := s.workers.set w .idle }

/-- All `n` workers idle, no provider in flight. -/
def initPool (n : Nat) : PoolState := { active := [], workers := List.replicate n .idle }

inductive PoolReachable (n : Nat) : PoolState → Prop where
  | init : PoolReachable n (initPool n)
  | step {s s' : PoolState} : PoolReachable n s → PoolStep s s' → PoolReachable n s'

/-- Worker `w` is crawling provider `name`. -/
def RunsName (s : PoolState) (w : Nat) (name : Nat) : Prop :=
  s.workers.get? w = some (.running name)

/-- The single-flight invariant: the map's keys are distinct, every crawl in
flight holds its map entry, and at most one worker crawls a given name. -/
def PoolInv (s : PoolState) : Prop :=
  s.active.Nodup ∧
  (∀ w name, RunsName s w name → name ∈ s.active) ∧
  (∀ w w' name, RunsName s w name → RunsName s w' name → w = w')

theorem replicate_idle_get {n w : Nat} {x : WorkerSt}
    (h : (List.replicate n WorkerSt.idle).get? w = some x) : x = WorkerSt.idle := by
  induction n generalizing w with
  | zero => cases h
  | succ n ih =>
      cases w with
      | zero =>
          rw [List.replicate, List.get?] at h
          cases h
          rfl
      | succ w =>
          rw [List.replicate, List.get?] at h
          exact ih h

theorem poolInv_init (n : Nat) : PoolInv (initPool n) := by
  refine ⟨List.nodup_nil, ?_, ?_⟩
  · intro w name hr
    cases replicate_idle_get hr
  · intro w w' name hr hr'
    cases replicate_idle_get hr

theorem poolInv_step {s s' : PoolState} (hInv : PoolInv s) (hstep : PoolStep s s') :
    PoolInv s' := by
  obtain ⟨h1, h2, h3⟩ := hInv
  cases hstep with
  | pull_skip w name hw hname => exact ⟨h1, h2, h3⟩
  | pull_run w name hw hname =>
      have hwlt : w < s.workers.length := by
        rcases List.get?_eq_some.mp hw with ⟨hlt, _⟩
        exact hlt
      refine ⟨List.nodup_cons.mpr ⟨hname, h1⟩, ?_, ?_⟩
      · intro v nm hr
        by_cases hvw : w = v
        · subst hvw
          have : (s.workers.set w (.running name)).get? w = some (.running name) :=
            List.get?_set_eq_of_lt _ hwlt
          rw [show RunsName
              { active := name :: s.active, workers := s.workers.set w (.running name) }
                w nm =
              ((s.workers.set w (.running name)).get? w = some (.running nm)) from rfl] at hr
          rw [this] at hr
          cases hr
          exact List.mem_cons_self name s.active
        · have hr' : s.workers.get? v = some (.running nm) := by
            have := List.get?_set_ne (WorkerSt.running name) s.workers hvw
            exact this ▸ hr
          exact List.mem_cons_of_mem name (h2 v nm hr')
      · intro v v' nm hr hr'
        by_cases hvw : w = v <;> by_cases hvw' : w = v'
        · omega
        · subst hvw
          have heq : (s.workers.set w (.running name)).get? w = some (.running name) :=
            List.get?_set_eq_of_lt _ hwlt
          have hr2 : some (WorkerSt.running name) = some (.running nm) := by
            rw [← heq]
            exact hr
          cases hr2
          have hrv' : s.workers.get? v' = some (.running name) := by
            have := List.get?_set_ne (WorkerSt.running name) s.workers hvw'
            exact this ▸ hr'
          exact absurd (h2 v' name hrv') hname
        · subst hvw'
          have heq : (s.workers.set w (.running name)).get? w = some (.running name) :=
            List.get?_set_eq_of_lt _ hwlt
          have hr2 : some (WorkerSt.running name) = some (.running nm) := by
            rw [← heq]
            exact hr'
          cases hr2
          have hrv : s.workers.get? v = some (.running name) := by
            have := List.get?_set_ne (WorkerSt.running name) s.workers hvw
            exact this ▸ hr
          exact absurd (h2 v name hrv) hname
        · have hrv : s.workers.get? v = some (.running nm) := by
            have := List.get?_set_ne (WorkerSt.running name) s.workers hvw
            exact this ▸ hr
          have hrv' : s.workers.get? v' = some (.running nm) := by
            have := List.get?_set_ne (WorkerSt.running name) s.workers hvw'
            exact this ▸ hr'
          exact h3 v v' nm hrv hrv'
  | finish w name ok hw =>
      refine ⟨h1.erase name, ?_, ?_⟩
      · intro v nm hr
        by_cases hvw : w = v
        · subst hvw
          have hwlt : w < s.workers.length := by
            rcases List.get?_eq_some.mp hw with ⟨hlt, _⟩
            exact hlt
          have heq : (s.workers.set w WorkerSt.idle).get? w = some .idle :=
            List.get?_set_eq_of_lt _ hwlt
          have hr2 : some WorkerSt.idle = some (.running nm) := by
            rw [← heq]
            exact hr
          cases hr2
        · have hrv : s.workers.get? v = some (.running nm) := by
            have := List.get?_set_ne WorkerSt.idle s.workers hvw
            exact this ▸ hr
          have hmem := h2 v nm hrv
          have hne : ¬ nm = name := by
            intro hcontra
            subst hcontra
            exact absurd (h3 v w nm hrv hw).symm hvw
          exact (List.mem_erase_of_ne hne).mpr hmem
      · intro v v' nm hr hr'
        by_cases hvw : w = v
        · subst hvw
          have hwlt : w < s.workers.length := by
            rcases List.get?_eq_some.mp hw with ⟨hlt, _⟩
            exact hlt
          have heq : (s.workers.set w WorkerSt.idle).get? w = some .idle :=
            List.get?_set_eq_of_lt _ hwlt
          have hr2 : some WorkerSt.idle = some (.running nm) := by
            rw [← heq]
            exact hr
          cases hr2
        · by_cases hvw' : w = v'
          · subst hvw'
            have hwlt : w < s.workers.length := by
              rcases List.get?_eq_some.mp hw with ⟨hlt, _⟩
              exact hlt
            have heq : (s.workers.set w WorkerSt.idle).get? w = some .idle :=
              List.get?_set_eq_of_lt _ hwlt
            have hr2 : some WorkerSt.idle = some (.running nm) := by
              rw [← heq]
              exact hr'
            cases hr2
          · have hrv : s.workers.get? v = some (.running nm) := by
              have := List.get?_set_ne WorkerSt.idle s.workers hvw
              exact this ▸ hr
            have hrv' : s.workers.get? v' = some (.running nm) := by
              have := List.get?_set_ne WorkerSt.idle s.workers hvw'
              exact this ▸ hr'
            exact h3 v v' nm hrv hrv'

theorem poolInv_reachable {n : Nat} {s : PoolState} (h : PoolReachable n s) : PoolInv s := by
  induction h with
  | init => exact poolInv_init n
  | step _ hstep ih => exact poolInv_step ih hstep

/-- **C9.** In every state the worker pool can reach — workers pull jobs,
skip and drop a job whose provider name is already in the active map, insert
the name before crawling, and delete it exactly when the crawl returns,
successfully or not — at most one worker is crawling any given provider
name, and every in-flight crawl holds its map entry. -/
theorem single_flight (n : Nat) (s : PoolState) (h : PoolReachable n s) :
    (∀ w w' name, RunsName s w name → RunsName s w' name → w = w') ∧
    (∀ w name, RunsName s w name → name ∈ s.active) :=
  ⟨(poolInv_reachable h).2.2, (poolInv_reachable h).2.1⟩

theorem single_flight_witness : (0 : Nat) = 0 :=
  (single_flight 2 { active := [7], workers := [WorkerSt.running 7, WorkerSt.idle] }
    (PoolReachable.step PoolReachable.init
      (PoolStep.pull_run (initPool 2) 0 7 (by rfl) (by simp [initPool])))).1
    0 0 7 rfl rfl

end SNC
